import Mathlib

/-!
# company-skynet-core: bulk transition consumer

A shallow embedding of `src/library/queue.js` and `src/handlers/bulkTransition.js`.

* JavaScript values are the inductive type `JVal`; numbers are integers.
* A function that may throw returns `Except JErr _`.
* Calls to the outside world (the SQS client, the throttle library, the message
  processor) are parameters, and every function that performs such calls returns
  the list of calls it made together with its result.
-/

namespace Skynet

/-! ## JavaScript values -/

/-- JavaScript values that can occur in a decoded queue message. Object members are
kept in enumeration order. -/
inductive JVal where
  | undefined : JVal
  | null : JVal
  | bool (b : Bool) : JVal
  | num (n : Int) : JVal
  | str (s : String) : JVal
  | arr (xs : List JVal) : JVal
  | obj (kvs : List (String × JVal)) : JVal

/-- Values that can be thrown. -/
inductive JErr where
  | syntaxError : JErr
  | typeError : JErr
  | error (message : String) : JErr
  | external (code : Nat) : JErr
  deriving DecidableEq

namespace JVal

/-- The conversion `ToBoolean`, as applied by `message.Body ? _ : _`. -/
def truthy : JVal → Bool
  | undefined => false
  | null => false
  | bool b => b
  | num n => n != 0
  | str s => s != ""
  | arr _ => true
  | obj _ => true

/-- The test `v === s` for a string literal `s`. -/
def isStr (v : JVal) (s : String) : Bool :=
  match v with
  | str t => t == s
  | _ => false

mutual
/-- The conversion `ToString`, which `JSON.parse` applies to its argument: an array is
the comma-separated list of its elements, with `null` and `undefined` elements empty. -/
def toJSString : JVal → String
  | undefined => "undefined"
  | null => "null"
  | bool b => if b then "true" else "false"
  | num n => toString n
  | str s => s
  | arr xs => joinElems xs
  | obj _ => "[object Object]"
termination_by structural v => v
/-- The method `Array.prototype.join` with separator `,`. -/
def joinElems : List JVal → String
  | [] => ""
  | x :: rest =>
    (match x with
      | undefined => ""
      | null => ""
      | v => toJSString v) ++ (match rest with | [] => "" | _ => ",") ++ joinElems rest
termination_by structural xs => xs
end

/-- The own enumerable properties of a value, in enumeration order: the members of an
object, the elements of an array under their indices, the characters of a string
under their indices. -/
def entries : JVal → List (String × JVal)
  | obj kvs => kvs
  | arr xs => xs.enum.map (fun ix => (toString ix.1, ix.2))
  | str s => s.data.enum.map (fun ic => (toString ic.1, str (String.singleton ic.2)))
  | _ => []

/-- The call `Object.keys(v)`: a `TypeError` on `undefined` and `null`. -/
def keys : JVal → Except JErr (List String)
  | undefined => .error .typeError
  | null => .error .typeError
  | v => .ok (v.entries.map Prod.fst)

/-- The property read `v[key]` (own properties and `length`; properties inherited from
a prototype are not modelled): a `TypeError` on `undefined` and `null`, `undefined`
when the property is absent. -/
def get (v : JVal) (key : String) : Except JErr JVal :=
  match v with
  | undefined => .error .typeError
  | null => .error .typeError
  | v =>
    match v.entries.lookup key with
    | some x => .ok x
    | none =>
      if key = "length" then
        match v with
        | arr xs => .ok (num xs.length)
        | str s => .ok (num s.length)
        | _ => .ok undefined
      else .ok undefined

end JVal

/-- The object `{ ...res, [key]: v }`: the member `key` of `res` is replaced where
it stands, or added at the end. -/
def setMember (res : List (String × JVal)) (key : String) (v : JVal) :
    List (String × JVal) :=
  match res with
  | [] => [(key, v)]
  | (k, w) :: rest => if k = key then (k, v) :: rest else (k, w) :: setMember rest key v

/-! ## The queue client -/

/-- A message as delivered by the queue. `parseMsg` reads `Body`, `body` and
`ReceiptHandle`; a field that is not present is `JVal.undefined`. -/
structure SQSMessage where
  Body : JVal
  body : JVal
  ReceiptHandle : JVal

/-- The argument object of `sqs.receiveMessage`. -/
structure ReceiveParams where
  QueueUrl : String
  MaxNumberOfMessages : Nat
  VisibilityTimeout : Nat
  WaitTimeSeconds : Nat
  deriving DecidableEq

/-- The response of `sqs.receiveMessage`; `Messages = none` is a response whose
`Messages` field is undefined. -/
structure ReceiveResp where
  Messages : Option (List SQSMessage)

/-- The client returned by `new AWS.SQS({ region })`. The first argument of
`receiveMessage` is the position of the request among the requests of one call of
`getMsgsFromQueue`, so that a backend may answer equal requests differently. -/
structure SQSClient where
  receiveMessage : Nat → ReceiveParams → Except JErr ReceiveResp

/-- The part of the AWS SDK that `queue.js` uses. -/
structure AWSSdk where
  SQS : String → SQSClient

/-- The result of `Promise.all`: every result when all succeed, otherwise the error of
the first promise (in list order) that failed. -/
def promiseAll {α : Type} : List (Except JErr α) → Except JErr (List α)
  | [] => .ok []
  | .error e :: _ => .error e
  | .ok a :: rest =>
    match promiseAll rest with
    | .error e => .error e
    | .ok as => .ok (a :: as)

/-- The `while (msgsToFetch > 0)` loop of `getMsgsFromQueue` (queue.js 76-85): `proms`
holds the requests issued so far. -/
def receiveLoop (QueueUrl : String) (msgsToFetch : Nat) (proms : List ReceiveParams) :
    List ReceiveParams :=
  if msgsToFetch > 0 then
    let msgsToFetchThisIter := if msgsToFetch < 10 then msgsToFetch else 10
    receiveLoop QueueUrl (msgsToFetch - msgsToFetchThisIter)
      (proms ++ [{ QueueUrl := QueueUrl
                   MaxNumberOfMessages := msgsToFetchThisIter
                   VisibilityTimeout := 900
                   WaitTimeSeconds := 10 }])
  else proms
termination_by msgsToFetch
decreasing_by
  simp only [gt_iff_lt] at *
  split <;> omega

/-- The `resps.forEach` loop of `getMsgsFromQueue` (queue.js 87-91). -/
def collectMessages (resps : List ReceiveResp) : List SQSMessage :=
  resps.foldl
    (fun messages resp =>
      match resp.Messages with
      | some ms => if ms.length > 0 then messages ++ ms else messages
      | none => messages)
    []

/-- The function `getMsgsFromQueue` (queue.js 71-93). The first component is the list
of `receiveMessage` requests issued, in order; all of them are issued before the first
response is awaited. The second component is the returned list, or the error thrown. -/
def getMsgsFromQueue (AWS : AWSSdk) (region : String) (msgCountToFetch : Nat)
    (QueueUrl : String) : List ReceiveParams × Except JErr (List SQSMessage) :=
  let sqs := AWS.SQS region
  let reqs := receiveLoop QueueUrl msgCountToFetch []
  let proms := reqs.enum.map (fun ip => sqs.receiveMessage ip.1 ip.2)
  (reqs,
    match promiseAll proms with
    | .error e => .error e
    | .ok resps => .ok (collectMessages resps))

/-! ## The envelope decoder -/

/-- The body of the `reduce` callback of `unmarshallMsgAttribs` (queue.js 12-22) run
over the keys that remain; `res` is the accumulator. `jsonParse` is `JSON.parse`:
`none` stands for the `SyntaxError` it throws. -/
def unmarshallLoop (jsonParse : String → Option JVal) (attribs : JVal) :
    List String → List (String × JVal) → Except JErr (List (String × JVal))
  | [], res => .ok res
  | key :: rest, res =>
    match attribs.get key with
    | .error e => .error e
    | .ok attrib =>
      match attrib.get "Type", attrib.get "Value" with
      | .ok type, .ok value =>
        if !type.isStr "String" && !type.isStr "Number" then
          match jsonParse value.toJSString with
          | none => .error .syntaxError
          | some parsed => unmarshallLoop jsonParse attribs rest (setMember res key parsed)
        else unmarshallLoop jsonParse attribs rest (setMember res key value)
      | .error e, _ => .error e
      | _, .error e => .error e

/-- The function `unmarshallMsgAttribs` (queue.js 10-23). -/
def unmarshallMsgAttribs (jsonParse : String → Option JVal) (attribs : JVal) :
    Except JErr JVal :=
  match attribs.keys with
  | .error e => .error e
  | .ok keys =>
    match unmarshallLoop jsonParse attribs keys [] with
    | .error e => .error e
    | .ok res => .ok (.obj res)

/-- The object returned by `parseMsg`. -/
structure ParsedMsg where
  msgBody : JVal
  msgAttribs : JVal
  rcptHandle : JVal

/-- The function `parseMsg` (queue.js 31-49). `deepParseJson` is the function imported
from the package `deep-parse-json`, whose source is not part of the repository, and
`jsonParse` is `JSON.parse`. The `catch` block logs and throws the error again. -/
def parseMsg (deepParseJson : JVal → Except JErr JVal) (jsonParse : String → Option JVal)
    (message : SQSMessage) : Except JErr ParsedMsg :=
  match (if message.Body.truthy then deepParseJson message.Body
         else deepParseJson message.body) with
  | .error e1 => .error e1
  | .ok msgB =>
    match msgB.get "MessageAttributes" with
    | .error e => .error e
    | .ok .undefined =>
      match msgB.get "Message" with
      | .error e => .error e
      | .ok msg =>
        .ok { msgBody := msg, msgAttribs := .obj [], rcptHandle := message.ReceiptHandle }
    | .ok attribs =>
      match unmarshallMsgAttribs jsonParse attribs with
      | .error e => .error e
      | .ok msgAttribs =>
        match msgB.get "Message" with
        | .error e => .error e
        | .ok msg =>
          .ok { msgBody := msg, msgAttribs := msgAttribs,
                rcptHandle := message.ReceiptHandle }

/-- The value that `parseMsg` hands to `deepParseJson`: `message.Body` when it is
truthy, `message.body` otherwise (queue.js 32, 35-36). -/
def SQSMessage.rawBody (message : SQSMessage) : JVal :=
  if message.Body.truthy then message.Body else message.body

/-- Modelled from the spec: the recursive pass of `deepParseJson` (package
`deep-parse-json`, source not in the repository). §4.1 step 1: a string value that
itself parses as JSON is replaced by its parsed form, applied recursively; arrays and
objects are decoded member by member. A string whose text is a JSON number is kept as
a string: the scenario of §8 decodes `"Value":"5"` to the string `"5"`. The first
argument bounds the depth (§9: a depth guard). -/
def deepDecode (jsonParse : String → Option JVal) : Nat → JVal → JVal
  | 0, v => v
  | depth + 1, .str s =>
    match jsonParse s with
    | none => .str s
    | some (.num _) => .str s
    | some v => deepDecode jsonParse depth v
  | depth + 1, .arr xs => .arr (xs.map (deepDecode jsonParse depth))
  | depth + 1, .obj kvs => .obj (kvs.map (fun kv => (kv.1, deepDecode jsonParse depth kv.2)))
  | _ + 1, v => v

/-- Modelled from the spec: `deepParseJson` of the package `deep-parse-json`, whose
source is not in the repository: the deep decode of §4.1 step 1 and §9 applied to the
body. The pass re-attempts the parse on every string and keeps a string that does not
parse, and the body is treated like any other string: a body that is not JSON is handed
back unchanged, and the function does not throw. -/
def deepParseJson (jsonParse : String → Option JVal) (depth : Nat) (body : JVal) :
    Except JErr JVal :=
  .ok (deepDecode jsonParse depth body)

/-! ## The attribute flattening in the words of the specification -/

/-- The value that §4.1 step 2 stores for an attribute `{ Type, Value }`: `Value`
verbatim for the declared types `String` and `Number`, the JSON-parse of `Value` for
any other declared type. -/
def flattenAttrib (jsonParse : String → Option JVal) (type value : JVal) : Except JErr JVal :=
  if type.isStr "String" || type.isStr "Number" then .ok value
  else
    match jsonParse value.toJSString with
    | some parsed => .ok parsed
    | none => .error .syntaxError

/-- The attribute `{ Type: type, Value: value }` as an object. -/
def attribObj (type value : JVal) : JVal :=
  .obj [("Type", type), ("Value", value)]

/-! ## The decoder in the words of the specification -/

/-- The flattening of a list of attributes `(name, Type, Value)` in the words of §4.1
step 2: every attribute keeps its name and stores `flattenAttrib` of its pair. -/
def flattenAll (jsonParse : String → Option JVal) :
    List (String × JVal × JVal) → Except JErr (List (String × JVal))
  | [] => .ok []
  | (key, type, value) :: rest =>
    match flattenAttrib jsonParse type value with
    | .error e => .error e
    | .ok stored =>
      match flattenAll jsonParse rest with
      | .error e => .error e
      | .ok flat => .ok ((key, stored) :: flat)

/-- The mapping of attribute names to `{ Type, Value }` pairs as an object. -/
def attribsObj (attrs : List (String × JVal × JVal)) : JVal :=
  .obj (attrs.map (fun a => (a.1, attribObj a.2.1 a.2.2)))

/-! ## The fetch plan in the words of the specification -/

/-- The chunk sizes of §3 (FetchChunkPlan): `budget / 10` chunks of 10, followed by the
remainder when it is not zero. -/
def chunkPlan (budget : Nat) : List Nat :=
  List.replicate (budget / 10) 10 ++ (if budget % 10 = 0 then [] else [budget % 10])

/-- The request that `getMsgsFromQueue` issues for a chunk of `n` messages. -/
def receiveRequest (QueueUrl : String) (n : Nat) : ReceiveParams :=
  { QueueUrl := QueueUrl, MaxNumberOfMessages := n, VisibilityTimeout := 900,
    WaitTimeSeconds := 10 }

/-- The messages carried by a response: none when `Messages` is undefined. -/
def ReceiveResp.entries (resp : ReceiveResp) : List SQSMessage :=
  resp.Messages.getD []

/-! ## The handler -/

/-- The throttle settings that the handler passes on to the capacity query. -/
structure ThrottleSettings where
  throttleLmts : JVal
  safeThrottleLimit : JVal
  reserveCapForDirect : JVal
  retryCntForCapacity : JVal

/-- The functions that `bulkTransition.js` imports from `../library/throttle` and
`../library/process`. Their source is outside the handler; each is a function from its
arguments to the outcome of the promise it returns; the allowance is an integer.
`processMessage` also receives the position of the call among the processing calls of
one run. -/
structure Collaborators where
  getAvaiableCallsThisSec : ThrottleSettings → String → Bool → Except JErr Int
  incrementUsedCount : String → Nat → Except JErr Unit
  processMessage : Nat → String → String → String → ParsedMsg → Except JErr Unit

/-- The calls that one run of the handler makes to the outside world. -/
inductive Event where
  | getAvailableCapacity (service : String) : Event
  | receiveMessage (params : ReceiveParams) : Event
  | incrementUsedCount (service : String) (count : Nat) : Event
  | processMessage (region service account : String) (msg : ParsedMsg) : Event

/-- The string that the handler returns on completion (bulkTransition.js 39, 56). -/
def processingComplete : String := "bulkTransition: INFO: Processing complete"

/-- The error that the handler throws without capacity (bulkTransition.js 33). -/
def noCapacity : JErr := .error "bulkTransition: ERROR: No capacity to make a call"

/-- The queue url built by the handler (bulkTransition.js 35). -/
def bulkQueueUrl (region account service : String) : String :=
  "https://sqs." ++ region ++ ".amazonaws.com/" ++ account ++ "/" ++ service ++ "-bulktq"

/-- The `messagesToProcess.forEach` loop (bulkTransition.js 49-51) over the messages
that remain: `events` are the processing calls started so far and `proms` their
outcomes. When `parseMsg` throws the loop stops and the error leaves the loop. -/
def dispatchLoop (C : Collaborators) (deepParseJson : JVal → Except JErr JVal)
    (jsonParse : String → Option JVal) (region service account : String) :
    List SQSMessage → List Event → List (Except JErr Unit) →
      List Event × Except JErr (List (Except JErr Unit))
  | [], events, proms => (events, .ok proms)
  | message :: rest, events, proms =>
    match parseMsg deepParseJson jsonParse message with
    | .error e => (events, .error e)
    | .ok parsed =>
      dispatchLoop C deepParseJson jsonParse region service account rest
        (events ++ [.processMessage region service account parsed])
        (proms ++ [C.processMessage proms.length region service account parsed])

/-- The function `handler` (bulkTransition.js 14-61). The first component is the list of
calls made, in order; the second is the returned string, or the error thrown. The
`catch` block logs and throws the error again. -/
def handler (AWS : AWSSdk) (C : Collaborators) (deepParseJson : JVal → Except JErr JVal)
    (jsonParse : String → Option JVal) (settings : ThrottleSettings)
    (region service account : String) : List Event × Except JErr String :=
  match C.getAvaiableCallsThisSec settings service true with
  | .error e => ([.getAvailableCapacity service], .error e)
  | .ok availCap =>
    if availCap < 1 then ([.getAvailableCapacity service], .error noCapacity)
    else
      let fetched := getMsgsFromQueue AWS region availCap.toNat
        (bulkQueueUrl region account service)
      let fetchEvents := Event.getAvailableCapacity service :: fetched.1.map Event.receiveMessage
      match fetched.2 with
      | .error e => (fetchEvents, .error e)
      | .ok messagesToProcess =>
        if messagesToProcess.length < 1 then (fetchEvents, .ok processingComplete)
        else
          let usageEvents := fetchEvents ++ [.incrementUsedCount service messagesToProcess.length]
          match C.incrementUsedCount service messagesToProcess.length with
          | .error e => (usageEvents, .error e)
          | .ok _ =>
            let dispatched := dispatchLoop C deepParseJson jsonParse region service account
              messagesToProcess [] []
            match dispatched.2 with
            | .error e => (usageEvents ++ dispatched.1, .error e)
            | .ok proms =>
              match promiseAll proms with
              | .error e => (usageEvents ++ dispatched.1, .error e)
              | .ok _ => (usageEvents ++ dispatched.1, .ok processingComplete)

/-! ## A JSON reader for concrete inputs -/

namespace RefJSON

/-- Skips JSON white space. -/
def skipWs : List Char → List Char
  | [] => []
  | c :: cs => if c = ' ' ∨ c = '\n' ∨ c = '\r' ∨ c = '\t' then skipWs cs else c :: cs

/-- Reads a run of decimal digits. -/
def readDigits : List Char → Nat → Nat × List Char
  | [], acc => (acc, [])
  | c :: cs, acc =>
    if c.isDigit then readDigits cs (10 * acc + (c.toNat - 48)) else (acc, c :: cs)

/-- Reads an integer literal without sign: `0`, or a non-zero digit followed by
digits. -/
def readNat : List Char → Option (Nat × List Char)
  | [] => none
  | c :: cs =>
    if c = '0' then some (0, cs)
    else if c.isDigit then some (readDigits (c :: cs) 0)
    else none

/-- Whether a number literal ends here; fractions and exponents are outside the
fragment read. -/
def endsNumber : List Char → Bool
  | [] => true
  | c :: _ => !(c = '.' ∨ c = 'e' ∨ c = 'E' ∨ c.isDigit)

/-- Reads a string literal after its opening quote. -/
def readString : List Char → List Char → Option (String × List Char)
  | [], _ => none
  | c :: cs, acc =>
    if c = '"' then some (String.mk acc.reverse, cs)
    else if c = '\\' then
      match cs with
      | [] => none
      | d :: ds =>
        if d = '"' then readString ds ('"' :: acc)
        else if d = '\\' then readString ds ('\\' :: acc)
        else if d = '/' then readString ds ('/' :: acc)
        else if d = 'n' then readString ds ('\n' :: acc)
        else if d = 't' then readString ds ('\t' :: acc)
        else if d = 'r' then readString ds ('\r' :: acc)
        else none
    else if c.toNat < 32 then none
    else readString cs (c :: acc)

/-- Reads one of the words `true`, `false`, `null`. -/
def readLiteral (word : List Char) (v : JVal) (cs : List Char) : Option (JVal × List Char) :=
  if word.isPrefixOf cs then some (v, cs.drop word.length) else none

mutual
/-- Reads a JSON value; the first argument bounds the number of nested calls. -/
def readValue : Nat → List Char → Option (JVal × List Char)
  | 0, _ => none
  | fuel + 1, cs =>
    match skipWs cs with
    | [] => none
    | c :: rest =>
      if c = '{' then
        match skipWs rest with
        | '}' :: r => some (.obj [], r)
        | r => readMembers fuel r []
      else if c = '[' then
        match skipWs rest with
        | ']' :: r => some (.arr [], r)
        | r => readElems fuel r []
      else if c = '"' then
        match readString rest [] with
        | some (s, r) => some (.str s, r)
        | none => none
      else if c = '-' then
        match readNat rest with
        | some (n, r) => if endsNumber r then some (.num (-(n : Int)), r) else none
        | none => none
      else if c.isDigit then
        match readNat (c :: rest) with
        | some (n, r) => if endsNumber r then some (.num (n : Int), r) else none
        | none => none
      else if c = 't' then readLiteral ['t', 'r', 'u', 'e'] (.bool true) (c :: rest)
      else if c = 'f' then readLiteral ['f', 'a', 'l', 's', 'e'] (.bool false) (c :: rest)
      else if c = 'n' then readLiteral ['n', 'u', 'l', 'l'] .null (c :: rest)
      else none
/-- Reads the elements of an array after its opening bracket. -/
def readElems : Nat → List Char → List JVal → Option (JVal × List Char)
  | 0, _, _ => none
  | fuel + 1, cs, acc =>
    match readValue fuel cs with
    | none => none
    | some (v, r) =>
      match skipWs r with
      | ',' :: r1 => readElems fuel r1 (acc ++ [v])
      | ']' :: r1 => some (.arr (acc ++ [v]), r1)
      | _ => none
/-- Reads the members of an object after its opening brace; a repeated key keeps its
place and takes the later value. -/
def readMembers : Nat → List Char → List (String × JVal) → Option (JVal × List Char)
  | 0, _, _ => none
  | fuel + 1, cs, acc =>
    match skipWs cs with
    | '"' :: r =>
      match readString r [] with
      | none => none
      | some (k, r1) =>
        match skipWs r1 with
        | ':' :: r2 =>
          match readValue fuel r2 with
          | none => none
          | some (v, r3) =>
            match skipWs r3 with
            | ',' :: r4 => readMembers fuel r4 (setMember acc k v)
            | '}' :: r4 => some (.obj (setMember acc k v), r4)
            | _ => none
        | _ => none
    | _ => none
end

/-- An instance of `JSON.parse` for concrete inputs. It reads the fragment of JSON with
integer numbers, strings with the escapes for quote, backslash, slash, line feed, tab
and carriage return, arrays, objects and the three literals; other text gives `none`. -/
def parse (s : String) : Option JVal :=
  match readValue (2 * s.length + 2) s.data with
  | some (v, rest) => if (skipWs rest).isEmpty then some v else none
  | none => none

end RefJSON

/-! ## Reading a trace -/

/-- The counts passed to `incrementUsedCount` in a trace, in order. -/
def usageCounts : List Event → List Nat
  | [] => []
  | .incrementUsedCount _ count :: rest => count :: usageCounts rest
  | _ :: rest => usageCounts rest

/-- The `receiveMessage` requests of a trace, in order. -/
def fetchRequests : List Event → List ReceiveParams
  | [] => []
  | .receiveMessage params :: rest => params :: fetchRequests rest
  | _ :: rest => fetchRequests rest

/-- The messages handed to `processMessage` in a trace, in order. -/
def processedMsgs : List Event → List ParsedMsg
  | [] => []
  | .processMessage _ _ _ msg :: rest => msg :: processedMsgs rest
  | _ :: rest => processedMsgs rest

/-! ## Concrete inputs -/

/-- A queue message with the given body text and receipt handle. -/
def entryOf (body handle : String) : SQSMessage :=
  { Body := .str body, body := .undefined, ReceiptHandle := .str handle }

/-- The body of the scenario of §8, whose text is
`{"Message":"{\"x\":1}","MessageAttributes":{"k":{"Type":"Number","Value":"5"}}}`. -/
def scenarioBody : String :=
  "\x7b\"Message\":\"\x7b\\\"x\\\":1\x7d\",\"MessageAttributes\":\x7b\"k\":\x7b\"Type\":\"Number\",\"Value\":\"5\"\x7d\x7d\x7d"

/-- A body whose attribute `k` has the declared type `String` and the value `true`:
`{"Message":"m","MessageAttributes":{"k":{"Type":"String","Value":"true"}}}`. -/
def stringAttribBody : String :=
  "\x7b\"Message\":\"m\",\"MessageAttributes\":\x7b\"k\":\x7b\"Type\":\"String\",\"Value\":\"true\"\x7d\x7d\x7d"

/-- A body whose attribute `k` has the declared type `StringArray` and the value
`[1,2,3]`:
`{"Message":"m","MessageAttributes":{"k":{"Type":"StringArray","Value":"[1,2,3]"}}}`. -/
def arrayAttribBody : String :=
  "\x7b\"Message\":\"m\",\"MessageAttributes\":\x7b\"k\":\x7b\"Type\":\"StringArray\",\"Value\":\"[1,2,3]\"\x7d\x7d\x7d"

/-- A backend that holds `supply i` messages for the request at position `i`: it
answers with as many of them as the request allows, and with undefined `Messages`
when it holds none. -/
def supplyBackend (supply : Nat → Nat) : AWSSdk :=
  { SQS := fun _ =>
      { receiveMessage := fun i req =>
          .ok { Messages :=
                  if supply i = 0 then none
                  else some (List.replicate (min (supply i) req.MaxNumberOfMessages)
                    (entryOf "0" "h")) } } }

/-- The backend of the scenario of §8: the three requests of budget 23 are answered
with 10, 10 and 1 messages. -/
def underSupply : Nat → Nat
  | 0 => 10
  | 1 => 10
  | 2 => 1
  | _ => 0

/-- Collaborators that grant the allowance `allowance` and never fail. -/
def grantAll (allowance : Int) : Collaborators :=
  { getAvaiableCallsThisSec := fun _ _ _ => .ok allowance
    incrementUsedCount := fun _ _ => .ok ()
    processMessage := fun _ _ _ _ _ => .ok () }

/-- Throttle settings without content. -/
def noSettings : ThrottleSettings :=
  { throttleLmts := .undefined, safeThrottleLimit := .undefined,
    reserveCapForDirect := .undefined, retryCntForCapacity := .undefined }

/-! ## Further readings of a trace and further concrete inputs -/

/-- The number of capacity queries in a trace. -/
def capacityQueries : List Event → Nat
  | [] => 0
  | .getAvailableCapacity _ :: rest => capacityQueries rest + 1
  | _ :: rest => capacityQueries rest

/-- The outcomes of the processing calls for the decoded messages `msgs`, in order,
when the first of them is the call at position `start` of the run. -/
def processOutcomes (C : Collaborators) (region service account : String) :
    Nat → List ParsedMsg → List (Except JErr Unit)
  | _, [] => []
  | start, msg :: rest =>
    C.processMessage start region service account msg ::
      processOutcomes C region service account (start + 1) rest

/-- A backend that answers the request at position `i` with the `i`-th of the given
batches of messages, and with undefined `Messages` when there is no such batch. -/
def batchBackend (batches : List (List SQSMessage)) : AWSSdk :=
  { SQS := fun _ => { receiveMessage := fun i _ => .ok { Messages := batches.get? i } } }

/-- A backend whose request at position `bad` fails with the error `e`; every other
request is answered with undefined `Messages`. -/
def failingBackend (bad : Nat) (e : JErr) : AWSSdk :=
  { SQS := fun _ =>
      { receiveMessage := fun i _ => if i = bad then .error e else .ok { Messages := none } } }

/-- Collaborators that grant the allowance `allowance`, answer the usage recording with
`usage`, and answer the processing call at position `i` with `outcome i`. -/
def collaborators (allowance : Except JErr Int) (usage : Except JErr Unit)
    (outcome : Nat → Except JErr Unit) : Collaborators :=
  { getAvaiableCallsThisSec := fun _ _ _ => allowance
    incrementUsedCount := fun _ _ => usage
    processMessage := fun i _ _ _ _ => outcome i }

/-- The decoded message of the scenario of §8, with the receipt handle `handle`. -/
def scenarioMsg (handle : String) : ParsedMsg :=
  { msgBody := .obj [("x", .num 1)], msgAttribs := .obj [("k", .str "5")],
    rcptHandle := .str handle }

/-! ## The depth that a deep decode needs -/

/-- Whether the depth bound `depth` is enough for the deep decode of `v`: the pass
reaches every string that it has to look at before the bound is used up. -/
def settles (jsonParse : String → Option JVal) : Nat → JVal → Bool
  | 0, _ => false
  | depth + 1, .str s =>
    match jsonParse s with
    | none => true
    | some (.num _) => true
    | some v => settles jsonParse depth v
  | depth + 1, .arr xs => xs.all (settles jsonParse depth)
  | depth + 1, .obj kvs => kvs.all (fun kv => settles jsonParse depth kv.2)
  | _ + 1, _ => true

namespace JVal

mutual
/-- A size of a value: the number of its nodes, a string counting one more than its
length. The JSON text of a value is longer than the size of the value. -/
def weight : JVal → Nat
  | undefined => 1
  | null => 1
  | bool _ => 1
  | num _ => 1
  | str s => s.length + 1
  | arr xs => weightList xs + 1
  | obj kvs => weightMembers kvs + 1
termination_by structural v => v
/-- The sum of the sizes of the elements of an array. -/
def weightList : List JVal → Nat
  | [] => 0
  | x :: rest => weight x + weightList rest
termination_by structural xs => xs
/-- The sum of the sizes of the member values of an object. -/
def weightMembers : List (String × JVal) → Nat
  | [] => 0
  | kv :: rest => weight kv.2 + weightMembers rest
termination_by structural kvs => kvs
end

end JVal

/-! # Theorems -/

/-! ## The chunked fetcher -/

theorem chunkPlan_zero : chunkPlan 0 = [] := by
  simp [chunkPlan]

theorem chunkPlan_lt_ten (n : Nat) (h : n < 10) (h0 : 0 < n) : chunkPlan n = [n] := by
  have h1 : n / 10 = 0 := Nat.div_eq_of_lt h
  have h2 : n % 10 = n := Nat.mod_eq_of_lt h
  have h3 : n ≠ 0 := by omega
  simp [chunkPlan, h1, h2, h3]

theorem chunkPlan_add_ten (n : Nat) : chunkPlan (n + 10) = 10 :: chunkPlan n := by
  have h1 : (n + 10) / 10 = n / 10 + 1 := by omega
  have h2 : (n + 10) % 10 = n % 10 := by omega
  simp [chunkPlan, h1, h2, List.replicate_succ]

theorem chunkPlan_sum (n : Nat) : (chunkPlan n).sum = n := by
  unfold chunkPlan
  split <;> simp [List.sum_replicate] <;> omega

theorem chunkPlan_length (n : Nat) : (chunkPlan n).length = (n + 9) / 10 := by
  unfold chunkPlan
  split <;> simp <;> omega

theorem chunkPlan_mem (n c : Nat) (h : c ∈ chunkPlan n) : 1 ≤ c ∧ c ≤ 10 := by
  unfold chunkPlan at h
  split at h
  · simp at h; omega
  · simp at h
    rcases h with h | h <;> omega

theorem ceil_div_ten (n : Nat) : ⌈(n : ℚ) / 10⌉₊ = (n + 9) / 10 := by
  apply le_antisymm
  · rw [Nat.ceil_le, div_le_iff₀ (by norm_num)]
    have : n ≤ (n + 9) / 10 * 10 := by omega
    exact_mod_cast this
  · by_contra hlt
    push_neg at hlt
    have h1 : ⌈(n : ℚ) / 10⌉₊ * 10 ≥ n := by
      have := Nat.le_ceil ((n : ℚ) / 10)
      rw [div_le_iff₀ (by norm_num)] at this
      exact_mod_cast this
    omega

/-- The loop adds to `proms` one request for each chunk of the plan. -/
theorem receiveLoop_eq (QueueUrl : String) (n : Nat) :
    ∀ proms : List ReceiveParams,
      receiveLoop QueueUrl n proms = proms ++ (chunkPlan n).map (receiveRequest QueueUrl) := by
  induction n using Nat.strong_induction_on with
  | _ n ih =>
    intro proms
    rw [receiveLoop]
    by_cases h0 : n > 0
    · by_cases h10 : n < 10
      · simp only [h0, h10, if_true]
        rw [ih (n - n) (by omega), Nat.sub_self, chunkPlan_zero, chunkPlan_lt_ten n h10 h0]
        simp [receiveRequest]
      · simp only [h0, h10, if_true, if_false]
        rw [ih (n - 10) (by omega)]
        obtain ⟨m, rfl⟩ : ∃ m, n = m + 10 := ⟨n - 10, by omega⟩
        rw [chunkPlan_add_ten]
        simp [receiveRequest]
    · have : n = 0 := by omega
      subst this
      simp [chunkPlan_zero]

theorem getMsgsFromQueue_requests (AWS : AWSSdk) (region : String) (budget : Nat)
    (QueueUrl : String) :
    (getMsgsFromQueue AWS region budget QueueUrl).1 =
      (chunkPlan budget).map (receiveRequest QueueUrl) := by
  simp [getMsgsFromQueue, receiveLoop_eq]

theorem getMsgsFromQueue_sizes (AWS : AWSSdk) (region : String) (QueueUrl : String)
    (n : Nat) :
    (getMsgsFromQueue AWS region n QueueUrl).1.map (fun req => req.MaxNumberOfMessages) =
      chunkPlan n := by
  rw [getMsgsFromQueue_requests, List.map_map]
  have hid : ((fun req : ReceiveParams => req.MaxNumberOfMessages) ∘
      receiveRequest QueueUrl) = id := by
    funext c
    rfl
  rw [hid, List.map_id]

theorem promiseAll_eq_ok {α : Type} :
    ∀ (l : List (Except JErr α)) (as : List α),
      promiseAll l = .ok as → l = as.map Except.ok := by
  intro l
  induction l with
  | nil =>
    intro as h
    simp [promiseAll] at h
    simp [← h]
  | cons x l ih =>
    intro as h
    cases x with
    | error e => simp [promiseAll] at h
    | ok a =>
      simp only [promiseAll] at h
      cases hl : promiseAll l with
      | error e => simp [hl] at h
      | ok bs =>
        simp only [hl, Except.ok.injEq] at h
        subst h
        simp [ih bs hl]

theorem collectMessages_foldl (resps : List ReceiveResp) :
    ∀ acc : List SQSMessage,
      resps.foldl
        (fun messages resp =>
          match resp.Messages with
          | some ms => if ms.length > 0 then messages ++ ms else messages
          | none => messages)
        acc = acc ++ (resps.map ReceiveResp.entries).flatten := by
  induction resps with
  | nil => intro acc; simp
  | cons r rs ih =>
    intro acc
    rw [List.foldl_cons, ih]
    cases hr : r.Messages with
    | none => simp [ReceiveResp.entries, hr]
    | some ms =>
      cases ms with
      | nil => simp [ReceiveResp.entries, hr]
      | cons m ms => simp [ReceiveResp.entries, hr]

theorem collectMessages_eq_flatten (resps : List ReceiveResp) :
    collectMessages resps = (resps.map ReceiveResp.entries).flatten := by
  simpa [collectMessages] using collectMessages_foldl resps []

theorem responses_bounded (f : Nat × ReceiveParams → Except JErr ReceiveResp) :
    ∀ l : List (Nat × ReceiveParams),
      (∀ ip ∈ l, ∃ r, f ip = .ok r ∧ r.entries.length ≤ ip.2.MaxNumberOfMessages) →
      ∃ resps, promiseAll (l.map f) = .ok resps ∧
        (collectMessages resps).length ≤ (l.map (fun ip => ip.2.MaxNumberOfMessages)).sum := by
  intro l
  induction l with
  | nil => intro _; exact ⟨[], rfl, by simp [collectMessages]⟩
  | cons ip l ih =>
    intro h
    obtain ⟨r, hr, hlen⟩ := h ip (List.mem_cons_self _ _)
    obtain ⟨resps, hres, hsum⟩ := ih (fun jp hjp => h jp (List.mem_cons_of_mem _ hjp))
    refine ⟨r :: resps, by simp [promiseAll, hr, hres], ?_⟩
    rw [collectMessages_eq_flatten] at hsum ⊢
    simp only [List.map_cons, List.flatten_cons, List.length_append, List.sum_cons]
    omega

/-- C1: for every budget, `getMsgsFromQueue` issues exactly `ceil(budget / 10)`
`receiveMessage` requests, each with `MaxNumberOfMessages` between 1 and 10; budget 0
issues no request. -/
theorem getMsgsFromQueue_request_count (AWS : AWSSdk) (region : String) (budget : Nat)
    (QueueUrl : String) :
    (getMsgsFromQueue AWS region budget QueueUrl).1.length = ⌈(budget : ℚ) / 10⌉₊ ∧
    (∀ req ∈ (getMsgsFromQueue AWS region budget QueueUrl).1,
      1 ≤ req.MaxNumberOfMessages ∧ req.MaxNumberOfMessages ≤ 10) ∧
    (getMsgsFromQueue AWS region 0 QueueUrl).1 = [] := by
  refine ⟨?_, ?_, ?_⟩
  · rw [getMsgsFromQueue_requests, List.length_map, chunkPlan_length, ceil_div_ten]
  · intro req hreq
    rw [getMsgsFromQueue_requests, List.mem_map] at hreq
    obtain ⟨c, hc, rfl⟩ := hreq
    exact chunkPlan_mem budget c hc
  · rw [getMsgsFromQueue_requests, chunkPlan_zero]
    rfl

/-- C2: for every budget, the sequence of `MaxNumberOfMessages` values requested by
`getMsgsFromQueue` is `budget / 10` copies of 10 followed by `budget % 10` when that is
not zero; the values sum to the budget; budget 23 gives `[10, 10, 3]` and budget 0 gives
the empty sequence. -/
theorem getMsgsFromQueue_chunk_sizes (AWS : AWSSdk) (region : String) (budget : Nat)
    (QueueUrl : String) :
    (getMsgsFromQueue AWS region budget QueueUrl).1.map (fun req => req.MaxNumberOfMessages) =
      List.replicate (budget / 10) 10 ++ (if budget % 10 = 0 then [] else [budget % 10]) ∧
    ((getMsgsFromQueue AWS region budget QueueUrl).1.map
      (fun req => req.MaxNumberOfMessages)).sum = budget ∧
    (getMsgsFromQueue AWS region 23 QueueUrl).1.map (fun req => req.MaxNumberOfMessages) =
      [10, 10, 3] ∧
    (getMsgsFromQueue AWS region 0 QueueUrl).1.map (fun req => req.MaxNumberOfMessages) = [] := by
  have key := getMsgsFromQueue_sizes AWS region QueueUrl
  refine ⟨?_, ?_, ?_, ?_⟩
  · rw [key]; rfl
  · rw [key, chunkPlan_sum]
  · rw [key]; decide
  · rw [key]; decide

/-- C3: when the backend answers every request with at most the requested number of
messages (possibly none, possibly with `Messages` undefined), `getMsgsFromQueue`
returns a list, and its length is at most the budget. -/
theorem getMsgsFromQueue_length_le (AWS : AWSSdk) (region : String) (budget : Nat)
    (QueueUrl : String)
    (hsupply : ∀ (i : Nat) (req : ReceiveParams), ∃ resp,
      (AWS.SQS region).receiveMessage i req = .ok resp ∧
        resp.entries.length ≤ req.MaxNumberOfMessages) :
    ∃ messages, (getMsgsFromQueue AWS region budget QueueUrl).2 = .ok messages ∧
      0 ≤ messages.length ∧ messages.length ≤ budget := by
  obtain ⟨resps, hall, hlen⟩ := responses_bounded
    (fun ip => (AWS.SQS region).receiveMessage ip.1 ip.2)
    (receiveLoop QueueUrl budget []).enum (fun ip _ => hsupply ip.1 ip.2)
  refine ⟨collectMessages resps, ?_, Nat.zero_le _, ?_⟩
  · simp only [getMsgsFromQueue, hall]
  · have hsum : ((receiveLoop QueueUrl budget []).enum.map
        (fun ip => ip.2.MaxNumberOfMessages)).sum = budget := by
      have h1 : (receiveLoop QueueUrl budget []).enum.map (fun ip => ip.2.MaxNumberOfMessages)
          = (receiveLoop QueueUrl budget []).map (fun req => req.MaxNumberOfMessages) := by
        calc (receiveLoop QueueUrl budget []).enum.map (fun ip => ip.2.MaxNumberOfMessages)
            = ((receiveLoop QueueUrl budget []).enum.map Prod.snd).map
                (fun req => req.MaxNumberOfMessages) := by
              rw [List.map_map]; rfl
          _ = (receiveLoop QueueUrl budget []).map (fun req => req.MaxNumberOfMessages) := by
              rw [List.enum_map_snd]
      have h2 := getMsgsFromQueue_sizes AWS region QueueUrl budget
      simp only [getMsgsFromQueue] at h2
      rw [h1, h2, chunkPlan_sum]
    omega

/-- A witness of C3: the backend of the scenario of §8 under-supplies budget 23. -/
theorem getMsgsFromQueue_length_le_witness :
    ∃ messages, (getMsgsFromQueue (supplyBackend underSupply) "eu" 23 "q").2 = .ok messages ∧
      0 ≤ messages.length ∧ messages.length ≤ 23 :=
  getMsgsFromQueue_length_le (supplyBackend underSupply) "eu" 23 "q"
    (fun i req => ⟨_, rfl, by
      simp only [supplyBackend, ReceiveResp.entries]
      split
      · simp
      · simp only [Option.getD_some, List.length_replicate]
        exact Nat.min_le_right _ _⟩)

/-! ## The handler: capacity, fetch and usage -/

theorem usageCounts_append (xs ys : List Event) :
    usageCounts (xs ++ ys) = usageCounts xs ++ usageCounts ys := by
  induction xs with
  | nil => rfl
  | cons x xs ih => cases x <;> simp [usageCounts, ih]

theorem processedMsgs_append (xs ys : List Event) :
    processedMsgs (xs ++ ys) = processedMsgs xs ++ processedMsgs ys := by
  induction xs with
  | nil => rfl
  | cons x xs ih => cases x <;> simp [processedMsgs, ih]

theorem fetchRequests_append (xs ys : List Event) :
    fetchRequests (xs ++ ys) = fetchRequests xs ++ fetchRequests ys := by
  induction xs with
  | nil => rfl
  | cons x xs ih => cases x <;> simp [fetchRequests, ih]

theorem usageCounts_receive (reqs : List ReceiveParams) :
    usageCounts (reqs.map Event.receiveMessage) = [] := by
  induction reqs with
  | nil => rfl
  | cons r rs ih => simpa [usageCounts] using ih

theorem processedMsgs_receive (reqs : List ReceiveParams) :
    processedMsgs (reqs.map Event.receiveMessage) = [] := by
  induction reqs with
  | nil => rfl
  | cons r rs ih => simpa [processedMsgs] using ih

theorem fetchRequests_receive (reqs : List ReceiveParams) :
    fetchRequests (reqs.map Event.receiveMessage) = reqs := by
  induction reqs with
  | nil => rfl
  | cons r rs ih => simpa [fetchRequests] using ih

/-- The dispatch loop adds only processing calls to the trace. -/
theorem dispatchLoop_usageCounts (C : Collaborators) (D : JVal → Except JErr JVal)
    (jp : String → Option JVal) (region service account : String) :
    ∀ (messages : List SQSMessage) (events : List Event) (proms : List (Except JErr Unit)),
      usageCounts (dispatchLoop C D jp region service account messages events proms).1 =
        usageCounts events := by
  intro messages
  induction messages with
  | nil => intro events proms; rfl
  | cons m ms ih =>
    intro events proms
    simp only [dispatchLoop]
    cases parseMsg D jp m with
    | error e => rfl
    | ok parsed =>
      simp only [ih, usageCounts_append]
      simp [usageCounts]

/-- C4: when the allowance is at least 1 and the fetch returns `k ≥ 1` messages, the
handler calls `incrementUsedCount` exactly once, with the count `k` of messages
fetched (not with the allowance). -/
theorem handler_records_fetched_count (AWS : AWSSdk) (C : Collaborators)
    (D : JVal → Except JErr JVal) (jp : String → Option JVal) (settings : ThrottleSettings)
    (region service account : String) (availCap : Int) (messages : List SQSMessage)
    (hcap : C.getAvaiableCallsThisSec settings service true = .ok availCap)
    (hpos : 1 ≤ availCap)
    (hfetch : (getMsgsFromQueue AWS region availCap.toNat
      (bulkQueueUrl region account service)).2 = .ok messages)
    (hk : 1 ≤ messages.length) :
    usageCounts (handler AWS C D jp settings region service account).1 = [messages.length] := by
  have h1 : ¬ availCap < 1 := by omega
  have h2 : ¬ messages.length < 1 := by omega
  simp only [handler, hcap, h1, if_false, hfetch, h2]
  cases C.incrementUsedCount service messages.length with
  | error e =>
    simp [usageCounts_append, usageCounts, usageCounts_receive]
  | ok u =>
    simp only []
    cases hd : (dispatchLoop C D jp region service account messages [] []).2 with
    | error e =>
      simp only [usageCounts_append, dispatchLoop_usageCounts]
      simp [usageCounts, usageCounts_receive]
    | ok proms =>
      simp only []
      cases promiseAll proms <;>
      · simp only [usageCounts_append, dispatchLoop_usageCounts]
        simp [usageCounts, usageCounts_receive]

/-- A witness of C4, the scenario of §8: allowance 23, 21 messages fetched, usage
recorded 21. -/
theorem handler_records_fetched_count_witness :
    usageCounts (handler (supplyBackend underSupply) (grantAll 23)
      (deepParseJson RefJSON.parse 8) RefJSON.parse noSettings "eu" "svc" "42").1 = [21] :=
  handler_records_fetched_count (supplyBackend underSupply) (grantAll 23)
    (deepParseJson RefJSON.parse 8) RefJSON.parse noSettings "eu" "svc" "42" 23
    (List.replicate 21 (entryOf "0" "h")) rfl (by decide)
    (by
      simp only [getMsgsFromQueue, receiveLoop_eq]
      rfl)
    (by decide)

/-- C5: when the capacity query returns an allowance below 1, the handler fails with the
no-capacity error, and the capacity query is the only call it makes: no fetch request,
no usage recording, no processing call. -/
theorem handler_no_capacity (AWS : AWSSdk) (C : Collaborators)
    (D : JVal → Except JErr JVal) (jp : String → Option JVal) (settings : ThrottleSettings)
    (region service account : String) (availCap : Int)
    (hcap : C.getAvaiableCallsThisSec settings service true = .ok availCap)
    (hlow : availCap < 1) :
    (handler AWS C D jp settings region service account).2 = .error noCapacity ∧
    (handler AWS C D jp settings region service account).1 =
      [Event.getAvailableCapacity service] ∧
    fetchRequests (handler AWS C D jp settings region service account).1 = [] ∧
    usageCounts (handler AWS C D jp settings region service account).1 = [] ∧
    processedMsgs (handler AWS C D jp settings region service account).1 = [] := by
  have h : handler AWS C D jp settings region service account =
      ([Event.getAvailableCapacity service], .error noCapacity) := by
    simp only [handler, hcap, hlow, if_true]
  rw [h]
  exact ⟨rfl, rfl, rfl, rfl, rfl⟩

/-- A witness of C5: allowance 0 over a backend that holds messages. -/
theorem handler_no_capacity_witness :
    (handler (supplyBackend underSupply) (grantAll 0) (deepParseJson RefJSON.parse 8)
      RefJSON.parse noSettings "eu" "svc" "42").2 = .error noCapacity ∧
    (handler (supplyBackend underSupply) (grantAll 0) (deepParseJson RefJSON.parse 8)
      RefJSON.parse noSettings "eu" "svc" "42").1 = [Event.getAvailableCapacity "svc"] ∧
    fetchRequests (handler (supplyBackend underSupply) (grantAll 0)
      (deepParseJson RefJSON.parse 8) RefJSON.parse noSettings "eu" "svc" "42").1 = [] ∧
    usageCounts (handler (supplyBackend underSupply) (grantAll 0)
      (deepParseJson RefJSON.parse 8) RefJSON.parse noSettings "eu" "svc" "42").1 = [] ∧
    processedMsgs (handler (supplyBackend underSupply) (grantAll 0)
      (deepParseJson RefJSON.parse 8) RefJSON.parse noSettings "eu" "svc" "42").1 = [] :=
  handler_no_capacity (supplyBackend underSupply) (grantAll 0)
    (deepParseJson RefJSON.parse 8) RefJSON.parse noSettings "eu" "svc" "42" 0 rfl (by decide)

/-- C6: when the allowance is at least 1 and the fetch returns no message, the handler
returns the completion string, and its calls are the capacity query and the fetch
requests only: `incrementUsedCount` and the processing function are not called. -/
theorem handler_empty_fetch (AWS : AWSSdk) (C : Collaborators)
    (D : JVal → Except JErr JVal) (jp : String → Option JVal) (settings : ThrottleSettings)
    (region service account : String) (availCap : Int)
    (hcap : C.getAvaiableCallsThisSec settings service true = .ok availCap)
    (hpos : 1 ≤ availCap)
    (hfetch : (getMsgsFromQueue AWS region availCap.toNat
      (bulkQueueUrl region account service)).2 = .ok []) :
    (handler AWS C D jp settings region service account).2 = .ok processingComplete ∧
    usageCounts (handler AWS C D jp settings region service account).1 = [] ∧
    processedMsgs (handler AWS C D jp settings region service account).1 = [] ∧
    (handler AWS C D jp settings region service account).1 =
      Event.getAvailableCapacity service ::
        (getMsgsFromQueue AWS region availCap.toNat
          (bulkQueueUrl region account service)).1.map Event.receiveMessage := by
  have h1 : ¬ availCap < 1 := by omega
  have h : handler AWS C D jp settings region service account =
      (Event.getAvailableCapacity service ::
        (getMsgsFromQueue AWS region availCap.toNat
          (bulkQueueUrl region account service)).1.map Event.receiveMessage,
        .ok processingComplete) := by
    simp only [handler, hcap, h1, if_false, hfetch]
    simp
  rw [h]
  refine ⟨rfl, ?_, ?_, rfl⟩
  · simp [usageCounts, usageCounts_receive]
  · simp [processedMsgs, processedMsgs_receive]

/-- A witness of C6: allowance 5 over a backend that holds no message. -/
theorem handler_empty_fetch_witness :
    (handler (supplyBackend (fun _ => 0)) (grantAll 5) (deepParseJson RefJSON.parse 8)
      RefJSON.parse noSettings "eu" "svc" "42").2 = .ok processingComplete ∧
    usageCounts (handler (supplyBackend (fun _ => 0)) (grantAll 5)
      (deepParseJson RefJSON.parse 8) RefJSON.parse noSettings "eu" "svc" "42").1 = [] ∧
    processedMsgs (handler (supplyBackend (fun _ => 0)) (grantAll 5)
      (deepParseJson RefJSON.parse 8) RefJSON.parse noSettings "eu" "svc" "42").1 = [] ∧
    (handler (supplyBackend (fun _ => 0)) (grantAll 5) (deepParseJson RefJSON.parse 8)
      RefJSON.parse noSettings "eu" "svc" "42").1 =
      Event.getAvailableCapacity "svc" ::
        (getMsgsFromQueue (supplyBackend (fun _ => 0)) "eu" (5 : Int).toNat
          (bulkQueueUrl "eu" "42" "svc")).1.map Event.receiveMessage :=
  handler_empty_fetch (supplyBackend (fun _ => 0)) (grantAll 5)
    (deepParseJson RefJSON.parse 8) RefJSON.parse noSettings "eu" "svc" "42" 5 rfl (by decide)
    (by
      simp only [getMsgsFromQueue, receiveLoop_eq]
      rfl)

/-! ## The envelope decoder -/

theorem get_obj (kvs : List (String × JVal)) (key : String) :
    (JVal.obj kvs).get key = .ok ((kvs.lookup key).getD .undefined) := by
  simp only [JVal.get, JVal.entries]
  cases kvs.lookup key with
  | some x => rfl
  | none =>
    simp only [Option.getD_none]
    split <;> rfl

theorem parseMsg_body (D : JVal → Except JErr JVal) (message : SQSMessage) :
    (if message.Body.truthy then D message.Body else D message.body) = D message.rawBody := by
  unfold SQSMessage.rawBody
  split <;> rfl

/-- The `catch` block of `parseMsg` throws the error of `deepParseJson` again. -/
theorem parseMsg_rethrows (D : JVal → Except JErr JVal) (jp : String → Option JVal)
    (message : SQSMessage) (e : JErr) (hthrow : D message.rawBody = .error e) :
    parseMsg D jp message = .error e := by
  simp only [parseMsg, parseMsg_body, hthrow]

/-- The scenario of §8: the body decodes to the payload `{x: 1}` and the attributes
`{k: "5"}`, with `"5"` a string. -/
theorem parseMsg_scenario :
    parseMsg (deepParseJson RefJSON.parse 8) RefJSON.parse (entryOf scenarioBody "h") =
      .ok (scenarioMsg "h") :=
  rfl

/-- C7, the failing input: the body of the entry is the JSON text of an envelope whose
attribute `k` is `{Type: "String", Value: "true"}`. The flattening of the envelope's
`MessageAttributes` (§4.1 step 2, and `unmarshallMsgAttribs` applied to them) keeps the
string `"true"`, but `parseMsg` returns the attributes `{k: true}`, with `true` a
boolean: the value was decoded with the rest of the body before the flattening. -/
theorem parseMsg_attribs_not_flattening_of_envelope :
    RefJSON.parse stringAttribBody =
      some (.obj [("Message", .str "m"),
        ("MessageAttributes", attribsObj [("k", .str "String", .str "true")])]) ∧
    flattenAll RefJSON.parse [("k", .str "String", .str "true")] =
      .ok [("k", .str "true")] ∧
    unmarshallMsgAttribs RefJSON.parse (attribsObj [("k", .str "String", .str "true")]) =
      .ok (.obj [("k", .str "true")]) ∧
    parseMsg (deepParseJson RefJSON.parse 8) RefJSON.parse (entryOf stringAttribBody "h") =
      .ok { msgBody := .str "m", msgAttribs := .obj [("k", .bool true)],
            rcptHandle := .str "h" } ∧
    JVal.obj [("k", .bool true)] ≠ JVal.obj [("k", .str "true")] :=
  ⟨rfl, rfl, rfl, rfl, by simp⟩

theorem setMember_append (res : List (String × JVal)) (key : String) (v : JVal)
    (hnew : key ∉ res.map Prod.fst) : setMember res key v = res ++ [(key, v)] := by
  induction res with
  | nil => rfl
  | cons kw rest ih =>
    obtain ⟨k, w⟩ := kw
    simp only [List.map_cons, List.mem_cons, not_or] at hnew
    have hk : ¬ k = key := fun h => hnew.1 h.symm
    simp only [setMember, hk, if_false, ih hnew.2, List.cons_append]

theorem lookup_attribs (attrs : List (String × JVal × JVal))
    (hkeys : (attrs.map (fun a => a.1)).Nodup) (a : String × JVal × JVal) (ha : a ∈ attrs) :
    (attrs.map (fun a => (a.1, attribObj a.2.1 a.2.2))).lookup a.1 =
      some (attribObj a.2.1 a.2.2) := by
  induction attrs with
  | nil => simp at ha
  | cons b rest ih =>
    simp only [List.map_cons, List.nodup_cons] at hkeys
    rcases List.mem_cons.1 ha with rfl | hmem
    · simp [List.lookup]
    · have hne : ¬ a.1 = b.1 := by
        intro h
        exact hkeys.1 (h ▸ List.mem_map_of_mem (fun a => a.1) hmem)
      simp only [List.map_cons, List.lookup]
      have : (a.1 == b.1) = false := by simpa using hne
      rw [this]
      exact ih hkeys.2 hmem

theorem unmarshallLoop_step (jp : String → Option JVal) (attribs : JVal) (key : String)
    (rest : List String) (res : List (String × JVal)) (type value : JVal)
    (hget : attribs.get key = .ok (attribObj type value)) :
    unmarshallLoop jp attribs (key :: rest) res =
      match flattenAttrib jp type value with
      | .error e => .error e
      | .ok stored => unmarshallLoop jp attribs rest (setMember res key stored) := by
  have ht : (attribObj type value).get "Type" = .ok type := rfl
  have hv : (attribObj type value).get "Value" = .ok value := by
    simp [attribObj, get_obj, List.lookup]
  simp only [unmarshallLoop, hget, ht, hv, flattenAttrib]
  by_cases h : (type.isStr "String" || type.isStr "Number") = true
  · have h2 : (!type.isStr "String" && !type.isStr "Number") = false := by
      cases h1 : type.isStr "String" <;> cases h3 : type.isStr "Number" <;> simp_all
    simp only [h, h2, if_true]
    rfl
  · have h2 : (!type.isStr "String" && !type.isStr "Number") = true := by
      cases h1 : type.isStr "String" <;> cases h3 : type.isStr "Number" <;> simp_all
    simp only [h, h2, if_true]
    cases jp value.toJSString <;> rfl

theorem unmarshallLoop_flattenAll (jp : String → Option JVal)
    (attrs : List (String × JVal × JVal)) (hkeys : (attrs.map (fun a => a.1)).Nodup) :
    ∀ (rest : List (String × JVal × JVal)) (res : List (String × JVal)),
      (∀ a ∈ rest, a ∈ attrs) →
      (rest.map (fun a => a.1)).Nodup →
      (∀ a ∈ rest, a.1 ∉ res.map Prod.fst) →
      unmarshallLoop jp (attribsObj attrs) (rest.map (fun a => a.1)) res =
        match flattenAll jp rest with
        | .error e => .error e
        | .ok flat => .ok (res ++ flat) := by
  intro rest
  induction rest with
  | nil => intro res _ _ _; simp [unmarshallLoop, flattenAll]
  | cons a rest ih =>
    intro res hsub hnd hfresh
    obtain ⟨key, type, value⟩ := a
    have hget : (attribsObj attrs).get key = .ok (attribObj type value) := by
      rw [attribsObj, get_obj,
        lookup_attribs attrs hkeys (key, type, value) (hsub _ (List.mem_cons_self _ _))]
      rfl
    simp only [List.map_cons, List.nodup_cons] at hnd
    rw [List.map_cons, unmarshallLoop_step jp _ key _ res type value hget]
    simp only [flattenAll]
    cases flattenAttrib jp type value with
    | error e => rfl
    | ok stored =>
      have hkey : key ∉ res.map Prod.fst := hfresh (key, type, value) (List.mem_cons_self _ _)
      simp only [setMember_append res key stored hkey]
      rw [ih (res ++ [(key, stored)]) (fun b hb => hsub b (List.mem_cons_of_mem _ hb)) hnd.2]
      · cases flattenAll jp rest <;> simp
      · intro b hb
        simp only [List.map_append, List.map_cons, List.map_nil, List.mem_append,
          List.mem_singleton, not_or]
        refine ⟨hfresh b (List.mem_cons_of_mem _ hb), ?_⟩
        intro h
        exact hnd.1 (h ▸ List.mem_map_of_mem (fun a => a.1) hb)

theorem flattenAll_keys (jp : String → Option JVal) :
    ∀ (attrs : List (String × JVal × JVal)) (flat : List (String × JVal)),
      flattenAll jp attrs = .ok flat →
      flat.map Prod.fst = attrs.map (fun a => a.1) ∧
      ∀ a ∈ attrs, ∃ stored, flattenAttrib jp a.2.1 a.2.2 = .ok stored ∧
        (a.1, stored) ∈ flat := by
  intro attrs
  induction attrs with
  | nil =>
    intro flat h
    simp only [flattenAll, Except.ok.injEq] at h
    subst h
    simp
  | cons a rest ih =>
    intro flat h
    obtain ⟨key, type, value⟩ := a
    simp only [flattenAll] at h
    cases hs : flattenAttrib jp type value with
    | error e => simp [hs] at h
    | ok stored =>
      cases hr : flattenAll jp rest with
      | error e => simp [hs, hr] at h
      | ok flat1 =>
        simp only [hs, hr, Except.ok.injEq] at h
        subst h
        obtain ⟨hk, hv⟩ := ih flat1 hr
        refine ⟨by simp [hk], ?_⟩
        intro b hb
        rcases List.mem_cons.1 hb with rfl | hmem
        · exact ⟨stored, hs, List.mem_cons_self _ _⟩
        · obtain ⟨s, hs1, hs2⟩ := hv b hmem
          exact ⟨s, hs1, List.mem_cons_of_mem _ hs2⟩

/-- C8: for every mapping of distinct attribute names to `{Type, Value}` pairs,
`unmarshallMsgAttribs` computes the flattening of §4.1 step 2: the mapping it returns
has the same keys in the same order, and stores for each attribute its `Value` verbatim
when the `Type` is `String` or `Number` and the JSON-parse of its `Value` for any other
`Type` (the `SyntaxError` of a `Value` that does not parse is thrown). So
`{Type: "Number", Value: "5"}` gives the string `"5"` and
`{Type: "StringArray", Value: "[1,2,3]"}` gives the array `[1, 2, 3]`. -/
theorem unmarshallMsgAttribs_flattens (jp : String → Option JVal)
    (attrs : List (String × JVal × JVal)) (hkeys : (attrs.map (fun a => a.1)).Nodup) :
    (unmarshallMsgAttribs jp (attribsObj attrs) =
      match flattenAll jp attrs with
      | .error e => .error e
      | .ok flat => .ok (.obj flat)) ∧
    (∀ flat, unmarshallMsgAttribs jp (attribsObj attrs) = .ok (.obj flat) →
      flat.map Prod.fst = attrs.map (fun a => a.1) ∧
      ∀ a ∈ attrs,
        (a.2.1.isStr "String" || a.2.1.isStr "Number" → (a.1, a.2.2) ∈ flat) ∧
        (¬ (a.2.1.isStr "String" || a.2.1.isStr "Number") →
          ∃ parsed, jp a.2.2.toJSString = some parsed ∧ (a.1, parsed) ∈ flat)) ∧
    unmarshallMsgAttribs jp (attribsObj [("k", .str "Number", .str "5")]) =
      .ok (.obj [("k", .str "5")]) ∧
    unmarshallMsgAttribs RefJSON.parse (attribsObj [("k", .str "StringArray", .str "[1,2,3]")]) =
      .ok (.obj [("k", .arr [.num 1, .num 2, .num 3])]) := by
  have hmain : unmarshallMsgAttribs jp (attribsObj attrs) =
      match flattenAll jp attrs with
      | .error e => .error e
      | .ok flat => .ok (.obj flat) := by
    have hloop := unmarshallLoop_flattenAll jp attrs hkeys attrs [] (fun a h => h) hkeys
      (fun a _ => by simp)
    have hk : (attribsObj attrs).keys = .ok (attrs.map (fun a => a.1)) := by
      simp [attribsObj, JVal.keys, JVal.entries, Function.comp_def]
    simp only [unmarshallMsgAttribs, hk, hloop]
    cases flattenAll jp attrs <;> simp
  refine ⟨hmain, ?_, rfl, rfl⟩
  intro flat hflat
  rw [hmain] at hflat
  cases hall : flattenAll jp attrs with
  | error e => simp [hall] at hflat
  | ok flat1 =>
    simp only [hall, Except.ok.injEq, JVal.obj.injEq] at hflat
    subst hflat
    obtain ⟨hk, hv⟩ := flattenAll_keys jp attrs flat1 hall
    refine ⟨hk, ?_⟩
    intro a ha
    obtain ⟨stored, hs, hmem⟩ := hv a ha
    constructor
    · intro htype
      simp only [flattenAttrib, htype, if_true, Except.ok.injEq] at hs
      exact hs ▸ hmem
    · intro htype
      have hother : (a.2.1.isStr "String" || a.2.1.isStr "Number") = false := by
        simpa using htype
      cases hp : jp a.2.2.toJSString with
      | none => simp [flattenAttrib, hother, hp] at hs
      | some parsed =>
        simp only [flattenAttrib, hother, hp, Bool.false_eq_true, if_false,
          Except.ok.injEq] at hs
        exact ⟨parsed, rfl, hs ▸ hmem⟩

/-- A witness of C8: two attributes, of the types `Number` and `StringArray`. -/
theorem unmarshallMsgAttribs_flattens_witness :
    unmarshallMsgAttribs RefJSON.parse
      (attribsObj [("n", .str "Number", .str "5"), ("a", .str "StringArray", .str "[1,2,3]")]) =
      .ok (.obj [("n", .str "5"), ("a", .arr [.num 1, .num 2, .num 3])]) :=
  (unmarshallMsgAttribs_flattens RefJSON.parse
    [("n", .str "Number", .str "5"), ("a", .str "StringArray", .str "[1,2,3]")]
    (by decide)).1

/-- C9, the failing input: the body of the entry is the JSON text of an envelope whose
attribute `k` is `{Type: "StringArray", Value: "[1,2,3]"}`. `parseMsg` does not return
the attributes `{k: [1, 2, 3]}`: it throws a `SyntaxError`, because the value reaches
`JSON.parse` already decoded to an array, whose string form `1,2,3` is not JSON. -/
theorem parseMsg_array_attrib_throws :
    RefJSON.parse arrayAttribBody =
      some (.obj [("Message", .str "m"),
        ("MessageAttributes", attribsObj [("k", .str "StringArray", .str "[1,2,3]")])]) ∧
    deepParseJson RefJSON.parse 8 (.str arrayAttribBody) =
      .ok (.obj [("Message", .str "m"),
        ("MessageAttributes",
          attribsObj [("k", .str "StringArray", .arr [.num 1, .num 2, .num 3])])]) ∧
    (JVal.arr [.num 1, .num 2, .num 3]).toJSString = "1,2,3" ∧
    RefJSON.parse "1,2,3" = none ∧
    parseMsg (deepParseJson RefJSON.parse 8) RefJSON.parse (entryOf arrayAttribBody "h") =
      .error .syntaxError :=
  ⟨rfl, rfl, rfl, rfl, rfl⟩

/-- C10, the failing input: the body `hello` is not JSON-parsable. The decoder hands
the string back unchanged, so the `catch` block of `parseMsg` is not entered: `parseMsg`
does not fail, it returns a message whose `msgBody` is undefined and whose `msgAttribs`
are empty. -/
theorem parseMsg_unparsable_body_returns :
    RefJSON.parse "hello" = none ∧
    deepParseJson RefJSON.parse 8 (.str "hello") = .ok (.str "hello") ∧
    parseMsg (deepParseJson RefJSON.parse 8) RefJSON.parse (entryOf "hello" "h") =
      .ok { msgBody := .undefined, msgAttribs := .obj [], rcptHandle := .str "h" } :=
  ⟨rfl, rfl, rfl⟩

/-! ## The handler: dispatch -/

theorem capacityQueries_append (xs ys : List Event) :
    capacityQueries (xs ++ ys) = capacityQueries xs + capacityQueries ys := by
  induction xs with
  | nil => simp [capacityQueries]
  | cons x xs ih => cases x <;> simp [capacityQueries, ih]; omega

theorem capacityQueries_receive (reqs : List ReceiveParams) :
    capacityQueries (reqs.map Event.receiveMessage) = 0 := by
  induction reqs with
  | nil => rfl
  | cons r rs ih => simpa [capacityQueries] using ih

theorem processedMsgs_process (region service account : String) (msgs : List ParsedMsg) :
    processedMsgs (msgs.map (Event.processMessage region service account)) = msgs := by
  induction msgs with
  | nil => rfl
  | cons m ms ih => simpa [processedMsgs] using ih

theorem usageCounts_process (region service account : String) (msgs : List ParsedMsg) :
    usageCounts (msgs.map (Event.processMessage region service account)) = [] := by
  induction msgs with
  | nil => rfl
  | cons m ms ih => simpa [usageCounts] using ih

theorem fetchRequests_process (region service account : String) (msgs : List ParsedMsg) :
    fetchRequests (msgs.map (Event.processMessage region service account)) = [] := by
  induction msgs with
  | nil => rfl
  | cons m ms ih => simpa [fetchRequests] using ih

theorem processOutcomes_length (C : Collaborators) (region service account : String) :
    ∀ (msgs : List ParsedMsg) (start : Nat),
      (processOutcomes C region service account start msgs).length = msgs.length := by
  intro msgs
  induction msgs with
  | nil => intro start; rfl
  | cons m ms ih => intro start; simp [processOutcomes, ih]

/-- The dispatch loop over messages that all decode: one processing call for each
message, in order. -/
theorem dispatchLoop_all_decode (C : Collaborators) (D : JVal → Except JErr JVal)
    (jp : String → Option JVal) (region service account : String) :
    ∀ (messages : List SQSMessage) (parsed : List ParsedMsg) (events : List Event)
      (proms : List (Except JErr Unit)),
      messages.map (parseMsg D jp) = parsed.map Except.ok →
      dispatchLoop C D jp region service account messages events proms =
        (events ++ parsed.map (Event.processMessage region service account),
          .ok (proms ++ processOutcomes C region service account proms.length parsed)) := by
  intro messages
  induction messages with
  | nil =>
    intro parsed events proms h
    cases parsed with
    | nil => simp [dispatchLoop, processOutcomes]
    | cons p ps => simp at h
  | cons m ms ih =>
    intro parsed events proms h
    cases parsed with
    | nil => simp at h
    | cons p ps =>
      simp only [List.map_cons, List.cons.injEq] at h
      simp only [dispatchLoop, h.1]
      rw [ih ps _ _ h.2]
      simp [processOutcomes]

/-- The dispatch loop over messages of which the one after `front` is the first that
does not decode: processing calls for the messages of `front` only, and the error of
`parseMsg` leaves the loop. -/
theorem dispatchLoop_first_bad (C : Collaborators) (D : JVal → Except JErr JVal)
    (jp : String → Option JVal) (region service account : String) (bad : SQSMessage)
    (back : List SQSMessage) (e : JErr) (hbad : parseMsg D jp bad = .error e) :
    ∀ (front : List SQSMessage) (parsed : List ParsedMsg) (events : List Event)
      (proms : List (Except JErr Unit)),
      front.map (parseMsg D jp) = parsed.map Except.ok →
      dispatchLoop C D jp region service account (front ++ bad :: back) events proms =
        (events ++ parsed.map (Event.processMessage region service account), .error e) := by
  intro front
  induction front with
  | nil =>
    intro parsed events proms h
    cases parsed with
    | nil => simp [dispatchLoop, hbad]
    | cons p ps => simp at h
  | cons m ms ih =>
    intro parsed events proms h
    cases parsed with
    | nil => simp at h
    | cons p ps =>
      simp only [List.map_cons, List.cons.injEq] at h
      rw [List.cons_append, dispatchLoop]
      simp only [h.1]
      rw [ih ps _ _ h.2]
      simp

/-- The run of the handler once the usage recording has succeeded. -/
theorem handler_after_usage (AWS : AWSSdk) (C : Collaborators)
    (D : JVal → Except JErr JVal) (jp : String → Option JVal) (settings : ThrottleSettings)
    (region service account : String) (availCap : Int) (messages : List SQSMessage)
    (hcap : C.getAvaiableCallsThisSec settings service true = .ok availCap)
    (hpos : 1 ≤ availCap)
    (hfetch : (getMsgsFromQueue AWS region availCap.toNat
      (bulkQueueUrl region account service)).2 = .ok messages)
    (hk : 1 ≤ messages.length)
    (husage : C.incrementUsedCount service messages.length = .ok ()) :
    handler AWS C D jp settings region service account =
      (Event.getAvailableCapacity service ::
        ((getMsgsFromQueue AWS region availCap.toNat
            (bulkQueueUrl region account service)).1.map Event.receiveMessage ++
          (Event.incrementUsedCount service messages.length ::
            (dispatchLoop C D jp region service account messages [] []).1)),
        match (dispatchLoop C D jp region service account messages [] []).2 with
        | .error e => .error e
        | .ok proms =>
          match promiseAll proms with
          | .error e => .error e
          | .ok _ => .ok processingComplete) := by
  have h1 : ¬ availCap < 1 := by omega
  have h2 : ¬ messages.length < 1 := by omega
  simp only [handler, hcap, h1, if_false, hfetch, h2, husage]
  cases (dispatchLoop C D jp region service account messages [] []).2 with
  | error e => simp
  | ok proms =>
    simp only []
    cases hp : promiseAll proms <;> simp

theorem promiseAll_error_of_mem {α : Type} :
    ∀ (l : List (Except JErr α)) (e : JErr), Except.error e ∈ l →
      ∃ e1, promiseAll l = .error e1 ∧ Except.error e1 ∈ l := by
  intro l
  induction l with
  | nil => intro e h; simp at h
  | cons x rest ih =>
    intro e h
    cases x with
    | error e0 => exact ⟨e0, rfl, List.mem_cons_self _ _⟩
    | ok a =>
      have hrest : Except.error e ∈ rest := by
        rcases List.mem_cons.1 h with h1 | h1
        · cases h1
        · exact h1
      obtain ⟨e1, h1, h2⟩ := ih e hrest
      exact ⟨e1, by simp [promiseAll, h1], List.mem_cons_of_mem _ h2⟩

/-- C11: when `n ≥ 1` messages are fetched, the usage recording succeeds and every
message decodes, and at least one of the `n` processing calls fails, the handler fails
(with the error of a failed processing call), and all `n` processing calls were
started: the trace holds one processing call for each fetched message. -/
theorem handler_fails_when_processing_fails (AWS : AWSSdk) (C : Collaborators)
    (D : JVal → Except JErr JVal) (jp : String → Option JVal) (settings : ThrottleSettings)
    (region service account : String) (availCap : Int) (messages : List SQSMessage)
    (parsed : List ParsedMsg) (e : JErr)
    (hcap : C.getAvaiableCallsThisSec settings service true = .ok availCap)
    (hpos : 1 ≤ availCap)
    (hfetch : (getMsgsFromQueue AWS region availCap.toNat
      (bulkQueueUrl region account service)).2 = .ok messages)
    (hk : 1 ≤ messages.length)
    (husage : C.incrementUsedCount service messages.length = .ok ())
    (hdecode : messages.map (parseMsg D jp) = parsed.map Except.ok)
    (hfail : Except.error e ∈ processOutcomes C region service account 0 parsed) :
    (∃ e1, (handler AWS C D jp settings region service account).2 = .error e1 ∧
      Except.error e1 ∈ processOutcomes C region service account 0 parsed) ∧
    processedMsgs (handler AWS C D jp settings region service account).1 = parsed ∧
    (processedMsgs (handler AWS C D jp settings region service account).1).length =
      messages.length := by
  have hrun := handler_after_usage AWS C D jp settings region service account availCap
    messages hcap hpos hfetch hk husage
  have hloop := dispatchLoop_all_decode C D jp region service account messages parsed [] []
    hdecode
  simp only [List.nil_append, List.length_nil] at hloop
  rw [hloop] at hrun
  obtain ⟨e1, he1, hmem⟩ := promiseAll_error_of_mem _ e hfail
  have hlen : parsed.length = messages.length := by
    have := congrArg List.length hdecode
    simpa using this.symm
  rw [hrun]
  refine ⟨⟨e1, by simp only [he1], hmem⟩, ?_, ?_⟩
  · simp [processedMsgs, processedMsgs_append, processedMsgs_receive, processedMsgs_process]
  · simp [processedMsgs, processedMsgs_append, processedMsgs_receive, processedMsgs_process,
      hlen]

/-- A witness of C11: two messages are fetched and the second processing call fails. -/
theorem handler_fails_when_processing_fails_witness :
    (∃ e1, (handler (batchBackend [[entryOf scenarioBody "a", entryOf scenarioBody "b"]])
        (collaborators (.ok 2) (.ok ())
          (fun i => if i = 1 then .error (.external 7) else .ok ()))
        (deepParseJson RefJSON.parse 8) RefJSON.parse noSettings "eu" "svc" "42").2 =
          .error e1 ∧
      Except.error e1 ∈ processOutcomes
        (collaborators (.ok 2) (.ok ())
          (fun i => if i = 1 then .error (.external 7) else .ok ()))
        "eu" "svc" "42" 0 [scenarioMsg "a", scenarioMsg "b"]) ∧
    processedMsgs (handler (batchBackend [[entryOf scenarioBody "a", entryOf scenarioBody "b"]])
      (collaborators (.ok 2) (.ok ())
        (fun i => if i = 1 then .error (.external 7) else .ok ()))
      (deepParseJson RefJSON.parse 8) RefJSON.parse noSettings "eu" "svc" "42").1 =
        [scenarioMsg "a", scenarioMsg "b"] ∧
    (processedMsgs (handler (batchBackend [[entryOf scenarioBody "a", entryOf scenarioBody "b"]])
      (collaborators (.ok 2) (.ok ())
        (fun i => if i = 1 then .error (.external 7) else .ok ()))
      (deepParseJson RefJSON.parse 8) RefJSON.parse noSettings "eu" "svc" "42").1).length =
        [entryOf scenarioBody "a", entryOf scenarioBody "b"].length :=
  handler_fails_when_processing_fails
    (batchBackend [[entryOf scenarioBody "a", entryOf scenarioBody "b"]])
    (collaborators (.ok 2) (.ok ()) (fun i => if i = 1 then .error (.external 7) else .ok ()))
    (deepParseJson RefJSON.parse 8) RefJSON.parse noSettings "eu" "svc" "42" 2
    [entryOf scenarioBody "a", entryOf scenarioBody "b"] [scenarioMsg "a", scenarioMsg "b"]
    (.external 7) rfl (by decide)
    (by
      simp only [getMsgsFromQueue, receiveLoop_eq]
      rfl)
    (by decide) rfl rfl
    (List.mem_cons_of_mem _ (List.mem_cons_self _ _))

/-- C12: when `n ≥ 1` messages are fetched, the usage recording succeeds and every
message decodes, the processing function is called exactly `n` times, and the `i`-th
call receives `parseMsg` of the `i`-th fetched message: the list of the messages handed
to the processing function is the list of the decoded messages, each at its own
position and at no other. -/
theorem handler_processes_each_once (AWS : AWSSdk) (C : Collaborators)
    (D : JVal → Except JErr JVal) (jp : String → Option JVal) (settings : ThrottleSettings)
    (region service account : String) (availCap : Int) (messages : List SQSMessage)
    (parsed : List ParsedMsg)
    (hcap : C.getAvaiableCallsThisSec settings service true = .ok availCap)
    (hpos : 1 ≤ availCap)
    (hfetch : (getMsgsFromQueue AWS region availCap.toNat
      (bulkQueueUrl region account service)).2 = .ok messages)
    (hk : 1 ≤ messages.length)
    (husage : C.incrementUsedCount service messages.length = .ok ())
    (hdecode : messages.map (parseMsg D jp) = parsed.map Except.ok) :
    (processedMsgs (handler AWS C D jp settings region service account).1).length =
      messages.length ∧
    (processedMsgs (handler AWS C D jp settings region service account).1).map Except.ok =
      messages.map (parseMsg D jp) ∧
    (handler AWS C D jp settings region service account).1 =
      Event.getAvailableCapacity service ::
        ((getMsgsFromQueue AWS region availCap.toNat
            (bulkQueueUrl region account service)).1.map Event.receiveMessage ++
          (Event.incrementUsedCount service messages.length ::
            parsed.map (Event.processMessage region service account))) := by
  have hrun := handler_after_usage AWS C D jp settings region service account availCap
    messages hcap hpos hfetch hk husage
  have hloop := dispatchLoop_all_decode C D jp region service account messages parsed [] []
    hdecode
  simp only [List.nil_append, List.length_nil] at hloop
  rw [hloop] at hrun
  have hlen : parsed.length = messages.length := by
    have := congrArg List.length hdecode
    simpa using this.symm
  have hproc : processedMsgs (handler AWS C D jp settings region service account).1 =
      parsed := by
    rw [hrun]
    simp [processedMsgs, processedMsgs_append, processedMsgs_receive, processedMsgs_process]
  refine ⟨by rw [hproc, hlen], by rw [hproc, hdecode], ?_⟩
  rw [hrun]

/-- A witness of C12: two messages are fetched and both are processed, in order. -/
theorem handler_processes_each_once_witness :
    processedMsgs (handler (batchBackend [[entryOf scenarioBody "a", entryOf scenarioBody "b"]])
      (grantAll 2) (deepParseJson RefJSON.parse 8) RefJSON.parse noSettings
      "eu" "svc" "42").1 = [scenarioMsg "a", scenarioMsg "b"] := by
  have h := (handler_processes_each_once
    (batchBackend [[entryOf scenarioBody "a", entryOf scenarioBody "b"]]) (grantAll 2)
    (deepParseJson RefJSON.parse 8) RefJSON.parse noSettings "eu" "svc" "42" 2
    [entryOf scenarioBody "a", entryOf scenarioBody "b"] [scenarioMsg "a", scenarioMsg "b"]
    rfl (by decide)
    (by
      simp only [getMsgsFromQueue, receiveLoop_eq]
      rfl)
    (by decide) rfl rfl).2.2
  rw [h]
  simp [processedMsgs, processedMsgs_append, processedMsgs_receive, processedMsgs_process]

/-- The run of the handler when the usage recording fails. -/
theorem handler_usage_fails (AWS : AWSSdk) (C : Collaborators)
    (D : JVal → Except JErr JVal) (jp : String → Option JVal) (settings : ThrottleSettings)
    (region service account : String) (availCap : Int) (messages : List SQSMessage)
    (e : JErr)
    (hcap : C.getAvaiableCallsThisSec settings service true = .ok availCap)
    (hpos : 1 ≤ availCap)
    (hfetch : (getMsgsFromQueue AWS region availCap.toNat
      (bulkQueueUrl region account service)).2 = .ok messages)
    (hk : 1 ≤ messages.length)
    (husage : C.incrementUsedCount service messages.length = .error e) :
    handler AWS C D jp settings region service account =
      (Event.getAvailableCapacity service ::
        ((getMsgsFromQueue AWS region availCap.toNat
            (bulkQueueUrl region account service)).1.map Event.receiveMessage ++
          [Event.incrementUsedCount service messages.length]), .error e) := by
  have h1 : ¬ availCap < 1 := by omega
  have h2 : ¬ messages.length < 1 := by omega
  simp only [handler, hcap, h1, if_false, hfetch, h2, husage]
  simp

/-- The fetched messages split at the first one that does not decode. -/
theorem split_first_bad (D : JVal → Except JErr JVal) (jp : String → Option JVal) :
    ∀ messages : List SQSMessage,
      (∃ m ∈ messages, ∃ e, parseMsg D jp m = .error e) →
      ∃ (front : List SQSMessage) (bad : SQSMessage) (back : List SQSMessage)
        (parsed : List ParsedMsg) (e : JErr), messages = front ++ bad :: back ∧
        front.map (parseMsg D jp) = parsed.map Except.ok ∧ parseMsg D jp bad = .error e := by
  intro messages
  induction messages with
  | nil => intro h; obtain ⟨m, hm, _⟩ := h; simp at hm
  | cons m ms ih =>
    intro h
    cases hm : parseMsg D jp m with
    | error e => exact ⟨[], m, ms, [], e, rfl, rfl, hm⟩
    | ok p =>
      have hrest : ∃ m' ∈ ms, ∃ e, parseMsg D jp m' = .error e := by
        obtain ⟨m', hmem, e, he⟩ := h
        rcases List.mem_cons.1 hmem with rfl | hmem
        · rw [hm] at he; cases he
        · exact ⟨m', hmem, e, he⟩
      obtain ⟨front, bad, back, parsed, e, hsplit, hfront, hbad⟩ := ih hrest
      refine ⟨m :: front, bad, back, p :: parsed, e, ?_, ?_, hbad⟩
      · rw [hsplit]; rfl
      · simp [hm, hfront]

/-- C15: when at least one fetched message does not decode (`parseMsg` throws), the
handler fails: it does not return the completion string, and the batch is not processed
in full, the processing function is called for fewer messages than were fetched. -/
theorem handler_fails_when_decode_fails (AWS : AWSSdk) (C : Collaborators)
    (D : JVal → Except JErr JVal) (jp : String → Option JVal) (settings : ThrottleSettings)
    (region service account : String) (availCap : Int) (messages : List SQSMessage)
    (hcap : C.getAvaiableCallsThisSec settings service true = .ok availCap)
    (hpos : 1 ≤ availCap)
    (hfetch : (getMsgsFromQueue AWS region availCap.toNat
      (bulkQueueUrl region account service)).2 = .ok messages)
    (hbad : ∃ m ∈ messages, ∃ e, parseMsg D jp m = .error e) :
    (∃ e, (handler AWS C D jp settings region service account).2 = .error e) ∧
    (handler AWS C D jp settings region service account).2 ≠ .ok processingComplete ∧
    (processedMsgs (handler AWS C D jp settings region service account).1).length <
      messages.length := by
  obtain ⟨front, bad, back, parsed, e, hsplit, hfront, hbade⟩ := split_first_bad D jp messages hbad
  have hk : 1 ≤ messages.length := by rw [hsplit]; simp; omega
  have hlen : parsed.length = front.length := by
    have := congrArg List.length hfront
    simpa using this.symm
  cases husage : C.incrementUsedCount service messages.length with
  | error e1 =>
    rw [handler_usage_fails AWS C D jp settings region service account availCap messages e1
      hcap hpos hfetch hk husage]
    refine ⟨⟨e1, rfl⟩, by simp, ?_⟩
    simp [processedMsgs, processedMsgs_append, processedMsgs_receive]
    omega
  | ok u =>
    rw [handler_after_usage AWS C D jp settings region service account availCap messages
      hcap hpos hfetch hk husage]
    have hloop := dispatchLoop_first_bad C D jp region service account bad back e hbade
      front parsed [] [] hfront
    rw [← hsplit] at hloop
    rw [hloop]
    refine ⟨⟨e, rfl⟩, by simp, ?_⟩
    simp only [List.nil_append, processedMsgs, processedMsgs_append, processedMsgs_receive,
      processedMsgs_process, List.nil_append]
    rw [hlen, hsplit]
    simp

/-- A witness of C15: the second of three fetched messages has an attribute of the type
`StringArray`, on which `parseMsg` throws. -/
theorem handler_fails_when_decode_fails_witness :
    (∃ e, (handler
      (batchBackend [[entryOf scenarioBody "a", entryOf arrayAttribBody "b", entryOf scenarioBody "c"]])
      (grantAll 3) (deepParseJson RefJSON.parse 8) RefJSON.parse noSettings
      "eu" "svc" "42").2 = .error e) ∧
    (handler
      (batchBackend [[entryOf scenarioBody "a", entryOf arrayAttribBody "b", entryOf scenarioBody "c"]])
      (grantAll 3) (deepParseJson RefJSON.parse 8) RefJSON.parse noSettings
      "eu" "svc" "42").2 ≠ .ok processingComplete ∧
    (processedMsgs (handler
      (batchBackend [[entryOf scenarioBody "a", entryOf arrayAttribBody "b", entryOf scenarioBody "c"]])
      (grantAll 3) (deepParseJson RefJSON.parse 8) RefJSON.parse noSettings
      "eu" "svc" "42").1).length <
      [entryOf scenarioBody "a", entryOf arrayAttribBody "b", entryOf scenarioBody "c"].length :=
  handler_fails_when_decode_fails
    (batchBackend [[entryOf scenarioBody "a", entryOf arrayAttribBody "b", entryOf scenarioBody "c"]])
    (grantAll 3) (deepParseJson RefJSON.parse 8) RefJSON.parse noSettings "eu" "svc" "42" 3
    [entryOf scenarioBody "a", entryOf arrayAttribBody "b", entryOf scenarioBody "c"]
    rfl (by decide)
    (by
      simp only [getMsgsFromQueue, receiveLoop_eq]
      rfl)
    ⟨entryOf arrayAttribBody "b", List.mem_cons_of_mem _ (List.mem_cons_self _ _), .syntaxError, rfl⟩


/-- C19: when the fetched messages are `front`, then a message `bad` that does not
decode, then `back`, with every message of `front` decoding, and the run reaches the
dispatch loop (the usage recording has succeeded), then the usage has been recorded for
all `n` fetched messages, the processing function has been called for the messages of
`front` only (the first `j - 1`, where `j` is the position of `bad`), never for `bad`
or a message of `back`, and the handler fails with the error of `parseMsg`. -/
theorem handler_decode_failure_not_atomic (AWS : AWSSdk) (C : Collaborators)
    (D : JVal → Except JErr JVal) (jp : String → Option JVal) (settings : ThrottleSettings)
    (region service account : String) (availCap : Int) (front : List SQSMessage)
    (bad : SQSMessage) (back : List SQSMessage) (parsed : List ParsedMsg) (e : JErr)
    (hcap : C.getAvaiableCallsThisSec settings service true = .ok availCap)
    (hpos : 1 ≤ availCap)
    (hfetch : (getMsgsFromQueue AWS region availCap.toNat
      (bulkQueueUrl region account service)).2 = .ok (front ++ bad :: back))
    (husage : C.incrementUsedCount service (front ++ bad :: back).length = .ok ())
    (hfront : front.map (parseMsg D jp) = parsed.map Except.ok)
    (hbad : parseMsg D jp bad = .error e) :
    usageCounts (handler AWS C D jp settings region service account).1 =
      [(front ++ bad :: back).length] ∧
    processedMsgs (handler AWS C D jp settings region service account).1 = parsed ∧
    (processedMsgs (handler AWS C D jp settings region service account).1).length =
      front.length ∧
    (handler AWS C D jp settings region service account).2 = .error e ∧
    (handler AWS C D jp settings region service account).1 =
      Event.getAvailableCapacity service ::
        ((getMsgsFromQueue AWS region availCap.toNat
            (bulkQueueUrl region account service)).1.map Event.receiveMessage ++
          (Event.incrementUsedCount service (front ++ bad :: back).length ::
            parsed.map (Event.processMessage region service account))) := by
  have hk : 1 ≤ (front ++ bad :: back).length := by simp; omega
  have hrun := handler_after_usage AWS C D jp settings region service account availCap
    (front ++ bad :: back) hcap hpos hfetch hk husage
  have hloop := dispatchLoop_first_bad C D jp region service account bad back e hbad
    front parsed [] [] hfront
  rw [hloop] at hrun
  simp only [List.nil_append] at hrun
  have hlen : parsed.length = front.length := by
    have := congrArg List.length hfront
    simpa using this.symm
  have hproc : processedMsgs (handler AWS C D jp settings region service account).1 =
      parsed := by
    rw [hrun]
    simp [processedMsgs, processedMsgs_append, processedMsgs_receive, processedMsgs_process]
  refine ⟨?_, hproc, by rw [hproc, hlen], by rw [hrun], by rw [hrun]⟩
  rw [hrun]
  simp [usageCounts, usageCounts_append, usageCounts_receive, usageCounts_process]

/-- A witness of C19: the second of three fetched messages has an attribute of the type
`StringArray`, on which `parseMsg` throws; usage is recorded for 3 messages and only the
first is processed. -/
theorem handler_decode_failure_not_atomic_witness :
    usageCounts (handler
      (batchBackend [[entryOf scenarioBody "a", entryOf arrayAttribBody "b", entryOf scenarioBody "c"]])
      (grantAll 3) (deepParseJson RefJSON.parse 8) RefJSON.parse noSettings
      "eu" "svc" "42").1 = [3] ∧
    processedMsgs (handler
      (batchBackend [[entryOf scenarioBody "a", entryOf arrayAttribBody "b", entryOf scenarioBody "c"]])
      (grantAll 3) (deepParseJson RefJSON.parse 8) RefJSON.parse noSettings
      "eu" "svc" "42").1 = [scenarioMsg "a"] ∧
    (handler
      (batchBackend [[entryOf scenarioBody "a", entryOf arrayAttribBody "b", entryOf scenarioBody "c"]])
      (grantAll 3) (deepParseJson RefJSON.parse 8) RefJSON.parse noSettings
      "eu" "svc" "42").2 = .error .syntaxError := by
  have h := handler_decode_failure_not_atomic
    (batchBackend [[entryOf scenarioBody "a", entryOf arrayAttribBody "b", entryOf scenarioBody "c"]])
    (grantAll 3) (deepParseJson RefJSON.parse 8) RefJSON.parse noSettings "eu" "svc" "42" 3
    [entryOf scenarioBody "a"] (entryOf arrayAttribBody "b") [entryOf scenarioBody "c"]
    [scenarioMsg "a"] .syntaxError rfl (by decide)
    (by
      simp only [getMsgsFromQueue, receiveLoop_eq]
      rfl)
    rfl rfl rfl
  exact ⟨h.1, h.2.1, h.2.2.2.1⟩

/-- The calls that the dispatch loop adds to the trace are processing calls. -/
theorem dispatchLoop_events (C : Collaborators) (D : JVal → Except JErr JVal)
    (jp : String → Option JVal) (region service account : String) :
    ∀ (messages : List SQSMessage) (events : List Event) (proms : List (Except JErr Unit)),
      ∃ msgs : List ParsedMsg,
        (dispatchLoop C D jp region service account messages events proms).1 =
          events ++ msgs.map (Event.processMessage region service account) := by
  intro messages
  induction messages with
  | nil => intro events proms; exact ⟨[], by simp [dispatchLoop]⟩
  | cons m ms ih =>
    intro events proms
    simp only [dispatchLoop]
    cases parseMsg D jp m with
    | error e => exact ⟨[], by simp⟩
    | ok p =>
      obtain ⟨msgs, h⟩ := ih (events ++ [Event.processMessage region service account p])
        (proms ++ [C.processMessage proms.length region service account p])
      exact ⟨p :: msgs, by simp [h]⟩

/-- Every run of the handler ends in one of six ways. -/
theorem handler_cases (AWS : AWSSdk) (C : Collaborators)
    (D : JVal → Except JErr JVal) (jp : String → Option JVal) (settings : ThrottleSettings)
    (region service account : String) :
    (∃ e, C.getAvaiableCallsThisSec settings service true = .error e ∧
      handler AWS C D jp settings region service account =
        ([Event.getAvailableCapacity service], .error e)) ∨
    (∃ availCap, C.getAvaiableCallsThisSec settings service true = .ok availCap ∧
      availCap < 1 ∧
      handler AWS C D jp settings region service account =
        ([Event.getAvailableCapacity service], .error noCapacity)) ∨
    (∃ availCap e, C.getAvaiableCallsThisSec settings service true = .ok availCap ∧
      1 ≤ availCap ∧
      (getMsgsFromQueue AWS region availCap.toNat
        (bulkQueueUrl region account service)).2 = .error e ∧
      handler AWS C D jp settings region service account =
        (Event.getAvailableCapacity service ::
          (getMsgsFromQueue AWS region availCap.toNat
            (bulkQueueUrl region account service)).1.map Event.receiveMessage, .error e)) ∨
    (∃ availCap, C.getAvaiableCallsThisSec settings service true = .ok availCap ∧
      1 ≤ availCap ∧
      (getMsgsFromQueue AWS region availCap.toNat
        (bulkQueueUrl region account service)).2 = .ok [] ∧
      handler AWS C D jp settings region service account =
        (Event.getAvailableCapacity service ::
          (getMsgsFromQueue AWS region availCap.toNat
            (bulkQueueUrl region account service)).1.map Event.receiveMessage,
          .ok processingComplete)) ∨
    (∃ availCap messages e, C.getAvaiableCallsThisSec settings service true = .ok availCap ∧
      1 ≤ availCap ∧
      (getMsgsFromQueue AWS region availCap.toNat
        (bulkQueueUrl region account service)).2 = .ok messages ∧
      1 ≤ messages.length ∧
      C.incrementUsedCount service messages.length = .error e ∧
      handler AWS C D jp settings region service account =
        (Event.getAvailableCapacity service ::
          ((getMsgsFromQueue AWS region availCap.toNat
              (bulkQueueUrl region account service)).1.map Event.receiveMessage ++
            [Event.incrementUsedCount service messages.length]), .error e)) ∨
    (∃ (availCap : Int) (messages : List SQSMessage) (msgs : List ParsedMsg),
      C.getAvaiableCallsThisSec settings service true = .ok availCap ∧
      1 ≤ availCap ∧
      (getMsgsFromQueue AWS region availCap.toNat
        (bulkQueueUrl region account service)).2 = .ok messages ∧
      1 ≤ messages.length ∧
      C.incrementUsedCount service messages.length = .ok () ∧
      (handler AWS C D jp settings region service account).1 =
        Event.getAvailableCapacity service ::
          ((getMsgsFromQueue AWS region availCap.toNat
              (bulkQueueUrl region account service)).1.map Event.receiveMessage ++
            (Event.incrementUsedCount service messages.length ::
              msgs.map (Event.processMessage region service account))) ∧
      ((handler AWS C D jp settings region service account).2 = .ok processingComplete ∨
        ∃ e, (handler AWS C D jp settings region service account).2 = .error e)) := by
  cases hcap : C.getAvaiableCallsThisSec settings service true with
  | error e =>
    left
    exact ⟨e, rfl, by simp only [handler, hcap]⟩
  | ok availCap =>
    right
    by_cases hlow : availCap < 1
    · left
      exact ⟨availCap, rfl, hlow, by simp only [handler, hcap, hlow, if_true]⟩
    · right
      have hpos : 1 ≤ availCap := by omega
      cases hfetch : (getMsgsFromQueue AWS region availCap.toNat
          (bulkQueueUrl region account service)).2 with
      | error e =>
        left
        exact ⟨availCap, e, rfl, hpos, hfetch,
          by simp only [handler, hcap, hlow, if_false, hfetch]⟩
      | ok messages =>
        right
        cases messages with
        | nil =>
          left
          refine ⟨availCap, rfl, hpos, hfetch, ?_⟩
          simp only [handler, hcap, hlow, if_false, hfetch]
          simp
        | cons m ms =>
          right
          have hk : 1 ≤ (m :: ms).length := by simp
          cases husage : C.incrementUsedCount service (m :: ms).length with
          | error e =>
            left
            exact ⟨availCap, m :: ms, e, rfl, hpos, hfetch, hk, husage,
              handler_usage_fails AWS C D jp settings region service account availCap
                (m :: ms) e hcap hpos hfetch hk husage⟩
          | ok u =>
            right
            have hrun := handler_after_usage AWS C D jp settings region service account
              availCap (m :: ms) hcap hpos hfetch hk husage
            obtain ⟨msgs, hmsgs⟩ := dispatchLoop_events C D jp region service account
              (m :: ms) [] []
            refine ⟨availCap, m :: ms, msgs, rfl, hpos, hfetch, hk, husage, ?_, ?_⟩
            · rw [hrun, hmsgs]
              simp
            · rw [hrun]
              cases (dispatchLoop C D jp region service account (m :: ms) [] []).2 with
              | error e => exact Or.inr ⟨e, rfl⟩
              | ok proms =>
                simp only []
                cases promiseAll proms with
                | error e => exact Or.inr ⟨e, rfl⟩
                | ok _ => exact Or.inl rfl


/-- C13: the trace of every run of the handler is the capacity query, then the fetch
requests, then at most one usage recording, then the processing calls. A usage
recording is in the trace only when the fetch has returned (every request was
answered), and a processing call is in the trace only when the usage recording has
succeeded; so a run whose usage recording fails makes no processing call. -/
theorem handler_call_order (AWS : AWSSdk) (C : Collaborators)
    (D : JVal → Except JErr JVal) (jp : String → Option JVal) (settings : ThrottleSettings)
    (region service account : String) :
    ∃ (reqs : List ReceiveParams) (usage : List Nat) (msgs : List ParsedMsg),
      (handler AWS C D jp settings region service account).1 =
        Event.getAvailableCapacity service ::
          (reqs.map Event.receiveMessage ++
            (usage.map (Event.incrementUsedCount service) ++
              msgs.map (Event.processMessage region service account))) ∧
      (∀ count ∈ usage, usage = [count] ∧
        ∃ (availCap : Int) (messages : List SQSMessage),
          C.getAvaiableCallsThisSec settings service true = .ok availCap ∧
          getMsgsFromQueue AWS region availCap.toNat (bulkQueueUrl region account service) =
            (reqs, .ok messages) ∧
          count = messages.length) ∧
      (msgs ≠ [] → ∃ count, usage = [count] ∧
        C.incrementUsedCount service count = .ok ()) ∧
      (∀ count e, count ∈ usage → C.incrementUsedCount service count = .error e →
        msgs = [] ∧ processedMsgs (handler AWS C D jp settings region service account).1 = []) := by
  rcases handler_cases AWS C D jp settings region service account with
    ⟨e, _, h⟩ | ⟨availCap, _, _, h⟩ | ⟨availCap, e, _, _, _, h⟩ | ⟨availCap, _, _, _, h⟩ |
    ⟨availCap, messages, e, hcap, _, hfetch, _, _, h⟩ |
    ⟨availCap, messages, msgs, hcap, _, hfetch, _, husage, h, _⟩
  · exact ⟨[], [], [], by simp [h], by simp, by simp, by simp⟩
  · exact ⟨[], [], [], by simp [h], by simp, by simp, by simp⟩
  · exact ⟨(getMsgsFromQueue AWS region availCap.toNat
      (bulkQueueUrl region account service)).1, [], [], by simp [h], by simp, by simp,
      by simp⟩
  · exact ⟨(getMsgsFromQueue AWS region availCap.toNat
      (bulkQueueUrl region account service)).1, [], [], by simp [h], by simp, by simp,
      by simp⟩
  · refine ⟨(getMsgsFromQueue AWS region availCap.toNat
      (bulkQueueUrl region account service)).1, [messages.length], [], by simp [h], ?_,
      by simp, ?_⟩
    · intro count hc
      simp only [List.mem_singleton] at hc
      subst hc
      exact ⟨rfl, availCap, messages, hcap, Prod.ext rfl hfetch, rfl⟩
    · intro count e1 _ _
      refine ⟨rfl, ?_⟩
      rw [h]
      simp [processedMsgs, processedMsgs_append, processedMsgs_receive]
  · refine ⟨(getMsgsFromQueue AWS region availCap.toNat
      (bulkQueueUrl region account service)).1, [messages.length], msgs, by simp [h], ?_,
      ?_, ?_⟩
    · intro count hc
      simp only [List.mem_singleton] at hc
      subst hc
      exact ⟨rfl, availCap, messages, hcap, Prod.ext rfl hfetch, rfl⟩
    · intro _
      exact ⟨messages.length, rfl, husage⟩
    · intro count e1 hc he
      simp only [List.mem_singleton] at hc
      subst hc
      rw [husage] at he
      cases he

/-- A witness of C13: a run that fetches two messages and processes both. -/
theorem handler_call_order_witness :
    ∃ (reqs : List ReceiveParams) (usage : List Nat) (msgs : List ParsedMsg),
      (handler (batchBackend [[entryOf scenarioBody "a", entryOf scenarioBody "b"]])
        (grantAll 2) (deepParseJson RefJSON.parse 8) RefJSON.parse noSettings
        "eu" "svc" "42").1 =
        Event.getAvailableCapacity "svc" ::
          (reqs.map Event.receiveMessage ++
            (usage.map (Event.incrementUsedCount "svc") ++
              msgs.map (Event.processMessage "eu" "svc" "42"))) ∧
      (∀ count ∈ usage, usage = [count] ∧
        ∃ (availCap : Int) (messages : List SQSMessage),
          (grantAll 2).getAvaiableCallsThisSec noSettings "svc" true = .ok availCap ∧
          getMsgsFromQueue (batchBackend [[entryOf scenarioBody "a", entryOf scenarioBody "b"]])
            "eu" availCap.toNat (bulkQueueUrl "eu" "42" "svc") = (reqs, .ok messages) ∧
          count = messages.length) ∧
      (msgs ≠ [] → ∃ count, usage = [count] ∧
        (grantAll 2).incrementUsedCount "svc" count = .ok ()) ∧
      (∀ count e, count ∈ usage → (grantAll 2).incrementUsedCount "svc" count = .error e →
        msgs = [] ∧ processedMsgs (handler
          (batchBackend [[entryOf scenarioBody "a", entryOf scenarioBody "b"]])
          (grantAll 2) (deepParseJson RefJSON.parse 8) RefJSON.parse noSettings
          "eu" "svc" "42").1 = []) :=
  handler_call_order (batchBackend [[entryOf scenarioBody "a", entryOf scenarioBody "b"]])
    (grantAll 2) (deepParseJson RefJSON.parse 8) RefJSON.parse noSettings "eu" "svc" "42"

/-- C16: a run of the handler that does not fail returns the completion string
`bulkTransition: INFO: Processing complete`, whatever the number of messages fetched. -/
theorem handler_completion_string (AWS : AWSSdk) (C : Collaborators)
    (D : JVal → Except JErr JVal) (jp : String → Option JVal) (settings : ThrottleSettings)
    (region service account : String) (s : String)
    (hreturns : (handler AWS C D jp settings region service account).2 = .ok s) :
    s = "bulkTransition: INFO: Processing complete" ∧ s = processingComplete := by
  have hs : s = processingComplete := by
    rcases handler_cases AWS C D jp settings region service account with
      ⟨e, _, h⟩ | ⟨availCap, _, _, h⟩ | ⟨availCap, e, _, _, _, h⟩ | ⟨availCap, _, _, _, h⟩ |
      ⟨availCap, messages, e, _, _, _, _, _, h⟩ |
      ⟨availCap, messages, msgs, _, _, _, _, _, _, h⟩
    · rw [h] at hreturns; cases hreturns
    · rw [h] at hreturns; cases hreturns
    · rw [h] at hreturns; cases hreturns
    · rw [h] at hreturns
      simp only [Except.ok.injEq] at hreturns
      exact hreturns.symm
    · rw [h] at hreturns; cases hreturns
    · rcases h with h | ⟨e, h⟩
      · rw [h] at hreturns
        simp only [Except.ok.injEq] at hreturns
        exact hreturns.symm
      · rw [h] at hreturns; cases hreturns
  exact ⟨hs, hs⟩

/-- A witness of C16: a run that fetches no message and a run that fetches two messages
and processes both return the same string. -/
theorem handler_completion_string_witness :
    (handler (supplyBackend (fun _ => 0)) (grantAll 5) (deepParseJson RefJSON.parse 8)
      RefJSON.parse noSettings "eu" "svc" "42").2 = .ok processingComplete ∧
    (handler (batchBackend [[entryOf scenarioBody "a", entryOf scenarioBody "b"]]) (grantAll 2)
      (deepParseJson RefJSON.parse 8) RefJSON.parse noSettings "eu" "svc" "42").2 =
        .ok processingComplete ∧
    processingComplete = "bulkTransition: INFO: Processing complete" :=
  have hzero : (handler (supplyBackend (fun _ => 0)) (grantAll 5)
      (deepParseJson RefJSON.parse 8) RefJSON.parse noSettings "eu" "svc" "42").2 =
        .ok processingComplete := by
    simp only [handler, getMsgsFromQueue, receiveLoop_eq]
    rfl
  have htwo : (handler (batchBackend [[entryOf scenarioBody "a", entryOf scenarioBody "b"]])
      (grantAll 2) (deepParseJson RefJSON.parse 8) RefJSON.parse noSettings
      "eu" "svc" "42").2 = .ok processingComplete := by
    simp only [handler, getMsgsFromQueue, receiveLoop_eq]
    rfl
  ⟨hzero, htwo,
    (handler_completion_string
      (batchBackend [[entryOf scenarioBody "a", entryOf scenarioBody "b"]]) (grantAll 2)
      (deepParseJson RefJSON.parse 8) RefJSON.parse noSettings "eu" "svc" "42"
      processingComplete htwo).1⟩

/-! ## Failures of the collaborators and the merge of the responses -/

theorem promiseAll_map_ok {α β : Type} (f : α → Except JErr β) (g : α → β) :
    ∀ l : List α, (∀ a ∈ l, f a = .ok (g a)) → promiseAll (l.map f) = .ok (l.map g) := by
  intro l
  induction l with
  | nil => intro _; rfl
  | cons a rest ih =>
    intro h
    have ha := h a (List.mem_cons_self _ _)
    have hrest := ih (fun b hb => h b (List.mem_cons_of_mem _ hb))
    simp only [List.map_cons, promiseAll, ha, hrest]

/-- The fetch fails with `e` when a request fails and `e` is the error of every request
that fails. -/
theorem getMsgsFromQueue_fails (AWS : AWSSdk) (region : String) (budget : Nat)
    (QueueUrl : String) (e : JErr)
    (hsome : ∃ ip ∈ (getMsgsFromQueue AWS region budget QueueUrl).1.enum,
      (AWS.SQS region).receiveMessage ip.1 ip.2 = .error e)
    (hall : ∀ ip ∈ (getMsgsFromQueue AWS region budget QueueUrl).1.enum, ∀ e1,
      (AWS.SQS region).receiveMessage ip.1 ip.2 = .error e1 → e1 = e) :
    (getMsgsFromQueue AWS region budget QueueUrl).2 = .error e := by
  simp only [getMsgsFromQueue] at hsome hall ⊢
  obtain ⟨ip, hmem, hip⟩ := hsome
  have hin : Except.error e ∈ (receiveLoop QueueUrl budget []).enum.map
      (fun ip => (AWS.SQS region).receiveMessage ip.1 ip.2) :=
    List.mem_map.2 ⟨ip, hmem, hip⟩
  obtain ⟨e1, h1, h2⟩ := promiseAll_error_of_mem _ e hin
  obtain ⟨jp, hjmem, hj⟩ := List.mem_map.1 h2
  have : e1 = e := hall jp hjmem e1 hj
  subst this
  simp only [h1]

/-- C14: when the capacity query, a fetch request or the usage recording fails with an
error `e` (for the fetch: some request fails, and `e` is the error of every request
that fails), the handler fails with that same error `e`, and the failing call is made
once: one capacity query, each planned fetch request once, one usage recording. -/
theorem handler_propagates_errors (AWS : AWSSdk) (C : Collaborators)
    (D : JVal → Except JErr JVal) (jp : String → Option JVal) (settings : ThrottleSettings)
    (region service account : String) (e : JErr) :
    (C.getAvaiableCallsThisSec settings service true = .error e →
      (handler AWS C D jp settings region service account).2 = .error e ∧
      capacityQueries (handler AWS C D jp settings region service account).1 = 1 ∧
      (handler AWS C D jp settings region service account).1 =
        [Event.getAvailableCapacity service]) ∧
    (∀ availCap : Int, C.getAvaiableCallsThisSec settings service true = .ok availCap →
      1 ≤ availCap →
      (∃ ip ∈ (getMsgsFromQueue AWS region availCap.toNat
          (bulkQueueUrl region account service)).1.enum,
        (AWS.SQS region).receiveMessage ip.1 ip.2 = .error e) →
      (∀ ip ∈ (getMsgsFromQueue AWS region availCap.toNat
          (bulkQueueUrl region account service)).1.enum, ∀ e1,
        (AWS.SQS region).receiveMessage ip.1 ip.2 = .error e1 → e1 = e) →
      (handler AWS C D jp settings region service account).2 = .error e ∧
      fetchRequests (handler AWS C D jp settings region service account).1 =
        (chunkPlan availCap.toNat).map (receiveRequest (bulkQueueUrl region account service)) ∧
      usageCounts (handler AWS C D jp settings region service account).1 = [] ∧
      processedMsgs (handler AWS C D jp settings region service account).1 = []) ∧
    (∀ (availCap : Int) (messages : List SQSMessage),
      C.getAvaiableCallsThisSec settings service true = .ok availCap →
      1 ≤ availCap →
      (getMsgsFromQueue AWS region availCap.toNat
        (bulkQueueUrl region account service)).2 = .ok messages →
      1 ≤ messages.length →
      C.incrementUsedCount service messages.length = .error e →
      (handler AWS C D jp settings region service account).2 = .error e ∧
      usageCounts (handler AWS C D jp settings region service account).1 =
        [messages.length] ∧
      processedMsgs (handler AWS C D jp settings region service account).1 = []) := by
  refine ⟨?_, ?_, ?_⟩
  · intro hcap
    have h : handler AWS C D jp settings region service account =
        ([Event.getAvailableCapacity service], .error e) := by
      simp only [handler, hcap]
    rw [h]
    exact ⟨rfl, rfl, rfl⟩
  · intro availCap hcap hpos hsome hall
    have hfetch := getMsgsFromQueue_fails AWS region availCap.toNat
      (bulkQueueUrl region account service) e hsome hall
    have hlow : ¬ availCap < 1 := by omega
    have h : handler AWS C D jp settings region service account =
        (Event.getAvailableCapacity service ::
          (getMsgsFromQueue AWS region availCap.toNat
            (bulkQueueUrl region account service)).1.map Event.receiveMessage, .error e) := by
      simp only [handler, hcap, hlow, if_false, hfetch]
    rw [h]
    refine ⟨rfl, ?_, ?_, ?_⟩
    · simp only [fetchRequests, fetchRequests_receive]
      exact getMsgsFromQueue_requests AWS region availCap.toNat _
    · simp [usageCounts, usageCounts_receive]
    · simp [processedMsgs, processedMsgs_receive]
  · intro availCap messages hcap hpos hfetch hk husage
    rw [handler_usage_fails AWS C D jp settings region service account availCap messages e
      hcap hpos hfetch hk husage]
    refine ⟨rfl, ?_, ?_⟩
    · simp [usageCounts, usageCounts_append, usageCounts_receive]
    · simp [processedMsgs, processedMsgs_append, processedMsgs_receive]

/-- A witness of C14: a failing capacity query, a failing second fetch request out of
three, and a failing usage recording. -/
theorem handler_propagates_errors_witness :
    ((handler (supplyBackend underSupply) (collaborators (.error (.external 1)) (.ok ())
        (fun _ => .ok ())) (deepParseJson RefJSON.parse 8) RefJSON.parse noSettings
        "eu" "svc" "42").2 = .error (.external 1) ∧
      capacityQueries (handler (supplyBackend underSupply)
        (collaborators (.error (.external 1)) (.ok ()) (fun _ => .ok ()))
        (deepParseJson RefJSON.parse 8) RefJSON.parse noSettings "eu" "svc" "42").1 = 1 ∧
      (handler (supplyBackend underSupply) (collaborators (.error (.external 1)) (.ok ())
        (fun _ => .ok ())) (deepParseJson RefJSON.parse 8) RefJSON.parse noSettings
        "eu" "svc" "42").1 = [Event.getAvailableCapacity "svc"]) ∧
    ((handler (failingBackend 1 (.external 2)) (grantAll 23) (deepParseJson RefJSON.parse 8)
        RefJSON.parse noSettings "eu" "svc" "42").2 = .error (.external 2) ∧
      fetchRequests (handler (failingBackend 1 (.external 2)) (grantAll 23)
        (deepParseJson RefJSON.parse 8) RefJSON.parse noSettings "eu" "svc" "42").1 =
        (chunkPlan (23 : Int).toNat).map (receiveRequest (bulkQueueUrl "eu" "42" "svc")) ∧
      usageCounts (handler (failingBackend 1 (.external 2)) (grantAll 23)
        (deepParseJson RefJSON.parse 8) RefJSON.parse noSettings "eu" "svc" "42").1 = [] ∧
      processedMsgs (handler (failingBackend 1 (.external 2)) (grantAll 23)
        (deepParseJson RefJSON.parse 8) RefJSON.parse noSettings "eu" "svc" "42").1 = []) ∧
    ((handler (batchBackend [[entryOf scenarioBody "a", entryOf scenarioBody "b"]])
        (collaborators (.ok 2) (.error (.external 3)) (fun _ => .ok ()))
        (deepParseJson RefJSON.parse 8) RefJSON.parse noSettings "eu" "svc" "42").2 =
          .error (.external 3) ∧
      usageCounts (handler (batchBackend [[entryOf scenarioBody "a", entryOf scenarioBody "b"]])
        (collaborators (.ok 2) (.error (.external 3)) (fun _ => .ok ()))
        (deepParseJson RefJSON.parse 8) RefJSON.parse noSettings "eu" "svc" "42").1 =
          [[entryOf scenarioBody "a", entryOf scenarioBody "b"].length] ∧
      processedMsgs (handler (batchBackend [[entryOf scenarioBody "a", entryOf scenarioBody "b"]])
        (collaborators (.ok 2) (.error (.external 3)) (fun _ => .ok ()))
        (deepParseJson RefJSON.parse 8) RefJSON.parse noSettings "eu" "svc" "42").1 = []) :=
  ⟨(handler_propagates_errors (supplyBackend underSupply)
      (collaborators (.error (.external 1)) (.ok ()) (fun _ => .ok ()))
      (deepParseJson RefJSON.parse 8) RefJSON.parse noSettings "eu" "svc" "42"
      (.external 1)).1 rfl,
    (handler_propagates_errors (failingBackend 1 (.external 2)) (grantAll 23)
      (deepParseJson RefJSON.parse 8) RefJSON.parse noSettings "eu" "svc" "42"
      (.external 2)).2.1 23 rfl (by decide)
      (by
        simp only [getMsgsFromQueue, receiveLoop_eq]
        exact ⟨(1, receiveRequest (bulkQueueUrl "eu" "42" "svc") 10), by decide, rfl⟩)
      (by
        intro ip _ e1 h
        simp only [failingBackend] at h
        split at h
        · cases h; rfl
        · cases h),
    (handler_propagates_errors
      (batchBackend [[entryOf scenarioBody "a", entryOf scenarioBody "b"]])
      (collaborators (.ok 2) (.error (.external 3)) (fun _ => .ok ()))
      (deepParseJson RefJSON.parse 8) RefJSON.parse noSettings "eu" "svc" "42"
      (.external 3)).2.2 2 [entryOf scenarioBody "a", entryOf scenarioBody "b"] rfl
      (by decide)
      (by
        simp only [getMsgsFromQueue, receiveLoop_eq]
        rfl)
      (by decide) rfl⟩

/-- C17: when the backend answers every request, the list returned by
`getMsgsFromQueue` is the concatenation, in request order, of the `Messages` lists of
the responses, each in its own order, where undefined or empty `Messages` contribute
nothing; and the requests issued are those of the plan, whatever the responses. -/
theorem getMsgsFromQueue_concatenates (AWS : AWSSdk) (region : String) (budget : Nat)
    (QueueUrl : String) (resp : Nat → ReceiveParams → ReceiveResp)
    (hanswers : ∀ (i : Nat) (req : ReceiveParams),
      (AWS.SQS region).receiveMessage i req = .ok (resp i req)) :
    (getMsgsFromQueue AWS region budget QueueUrl).2 =
      .ok (((getMsgsFromQueue AWS region budget QueueUrl).1.enum.map
        (fun ip => (resp ip.1 ip.2).entries)).flatten) ∧
    (getMsgsFromQueue AWS region budget QueueUrl).1 =
      (chunkPlan budget).map (receiveRequest QueueUrl) ∧
    (getMsgsFromQueue AWS region budget QueueUrl).1.length = ⌈(budget : ℚ) / 10⌉₊ := by
  refine ⟨?_, getMsgsFromQueue_requests AWS region budget QueueUrl, ?_⟩
  · have hall := promiseAll_map_ok
      (fun ip : Nat × ReceiveParams => (AWS.SQS region).receiveMessage ip.1 ip.2)
      (fun ip => resp ip.1 ip.2) (receiveLoop QueueUrl budget []).enum
      (fun ip _ => hanswers ip.1 ip.2)
    simp only [getMsgsFromQueue, hall, collectMessages_eq_flatten, List.map_map]
    rfl
  · rw [getMsgsFromQueue_requests, List.length_map, chunkPlan_length, ceil_div_ten]

/-- A witness of C17: budget 23, the three requests are answered with two messages,
with an empty list and with undefined `Messages`; the two messages are returned. -/
theorem getMsgsFromQueue_concatenates_witness :
    (getMsgsFromQueue (batchBackend [[entryOf "1" "a", entryOf "2" "b"], []]) "eu" 23 "q").2 =
      .ok [entryOf "1" "a", entryOf "2" "b"] := by
  have h := (getMsgsFromQueue_concatenates
    (batchBackend [[entryOf "1" "a", entryOf "2" "b"], []]) "eu" 23 "q"
    (fun i _ => { Messages := [[entryOf "1" "a", entryOf "2" "b"], []].get? i })
    (fun _ _ => rfl)).1
  rw [h]
  simp only [getMsgsFromQueue, receiveLoop_eq]
  rfl

/-! ## The deep decode -/

theorem deepDecode_str_kept (jp : String → Option JVal) (s : String)
    (hkept : jp s = none ∨ ∃ n, jp s = some (.num n)) :
    ∀ depth, deepDecode jp depth (.str s) = .str s := by
  intro depth
  cases depth with
  | zero => rfl
  | succ d =>
    rcases hkept with h | ⟨n, h⟩ <;> simp only [deepDecode, h]

/-- At a depth that is enough for `v`, the decoded value is not changed by a further
deep decode, at any depth. -/
theorem deepDecode_settled (jp : String → Option JVal) :
    ∀ (depth : Nat) (v : JVal), settles jp depth v = true →
      ∀ again, deepDecode jp again (deepDecode jp depth v) = deepDecode jp depth v := by
  intro depth
  induction depth with
  | zero => intro v h; simp [settles] at h
  | succ d ih =>
    intro v h again
    cases v with
    | undefined => cases again <;> rfl
    | null => cases again <;> rfl
    | bool b => cases again <;> rfl
    | num n => cases again <;> rfl
    | str s =>
      cases hjp : jp s with
      | none =>
        simp only [deepDecode, hjp]
        exact deepDecode_str_kept jp s (Or.inl hjp) again
      | some w =>
        cases w with
        | num n =>
          simp only [deepDecode, hjp]
          exact deepDecode_str_kept jp s (Or.inr ⟨n, hjp⟩) again
        | undefined =>
          simp only [settles, hjp] at h
          simp only [deepDecode, hjp]
          exact ih _ h again
        | null =>
          simp only [settles, hjp] at h
          simp only [deepDecode, hjp]
          exact ih _ h again
        | bool b =>
          simp only [settles, hjp] at h
          simp only [deepDecode, hjp]
          exact ih _ h again
        | str t =>
          simp only [settles, hjp] at h
          simp only [deepDecode, hjp]
          exact ih _ h again
        | arr xs =>
          simp only [settles, hjp] at h
          simp only [deepDecode, hjp]
          exact ih _ h again
        | obj kvs =>
          simp only [settles, hjp] at h
          simp only [deepDecode, hjp]
          exact ih _ h again
    | arr xs =>
      simp only [settles, List.all_eq_true] at h
      cases again with
      | zero => rfl
      | succ a =>
        simp only [deepDecode, List.map_map, JVal.arr.injEq]
        apply List.map_congr_left
        intro x hx
        exact ih x (h x hx) a
    | obj kvs =>
      simp only [settles, List.all_eq_true] at h
      cases again with
      | zero => rfl
      | succ a =>
        simp only [deepDecode, List.map_map, JVal.obj.injEq]
        apply List.map_congr_left
        intro kv hkv
        simp only [Function.comp]
        rw [ih kv.2 (h kv hkv) a]

/-- A depth that is enough stays enough when it grows. -/
theorem settles_succ (jp : String → Option JVal) :
    ∀ (depth : Nat) (v : JVal), settles jp depth v = true → settles jp (depth + 1) v = true := by
  intro depth
  induction depth with
  | zero => intro v h; simp [settles] at h
  | succ d ih =>
    intro v h
    cases v with
    | undefined => rfl
    | null => rfl
    | bool b => rfl
    | num n => rfl
    | str s =>
      cases hjp : jp s with
      | none => simp only [settles, hjp]
      | some w =>
        cases w <;> simp only [settles, hjp] at h ⊢ <;> exact ih _ h
    | arr xs =>
      simp only [settles, List.all_eq_true] at h ⊢
      exact fun x hx => ih x (h x hx)
    | obj kvs =>
      simp only [settles, List.all_eq_true] at h ⊢
      exact fun kv hkv => ih kv.2 (h kv hkv)

/-- The value returned by `deepParseJson` at a depth that is enough for the body is not
changed by a further deep decode. -/
theorem deepParseJson_settled (jp : String → Option JVal) (depth : Nat) (x r : JVal)
    (hdepth : settles jp depth x = true) (hr : deepParseJson jp depth x = .ok r) :
    ∀ again, deepDecode jp again r = r := by
  intro again
  simp only [deepParseJson, Except.ok.injEq] at hr
  subst hr
  exact deepDecode_settled jp depth x hdepth again

theorem weight_mem_list : ∀ (xs : List JVal) (x : JVal), x ∈ xs →
    x.weight ≤ JVal.weightList xs := by
  intro xs
  induction xs with
  | nil => intro x h; simp at h
  | cons y rest ih =>
    intro x h
    simp only [JVal.weightList]
    rcases List.mem_cons.1 h with rfl | h
    · omega
    · have := ih x h
      omega

theorem weight_mem_members : ∀ (kvs : List (String × JVal)) (kv : String × JVal), kv ∈ kvs →
    kv.2.weight ≤ JVal.weightMembers kvs := by
  intro kvs
  induction kvs with
  | nil => intro kv h; simp at h
  | cons y rest ih =>
    intro kv h
    simp only [JVal.weightMembers]
    rcases List.mem_cons.1 h with rfl | h
    · omega
    · have := ih kv h
      omega

/-- Enough depth exists for every value: when the value that `jsonParse` returns for a
text is smaller than the text is long, a depth of the size of `v` is enough for `v`. -/
theorem settles_of_weight (jp : String → Option JVal)
    (hshrink : ∀ s v, jp s = some v → v.weight ≤ s.length) :
    ∀ (depth : Nat) (v : JVal), v.weight ≤ depth → settles jp depth v = true := by
  intro depth
  induction depth with
  | zero =>
    intro v h
    cases v <;> simp [JVal.weight] at h
  | succ d ih =>
    intro v h
    cases v with
    | undefined => rfl
    | null => rfl
    | bool b => rfl
    | num n => rfl
    | str s =>
      simp only [JVal.weight] at h
      cases hjp : jp s with
      | none => simp only [settles, hjp]
      | some w =>
        have hw : w.weight ≤ d := le_trans (hshrink s w hjp) (by omega)
        cases w <;> simp only [settles, hjp] <;> exact ih _ hw
    | arr xs =>
      simp only [JVal.weight] at h
      simp only [settles, List.all_eq_true]
      intro x hx
      have := weight_mem_list xs x hx
      exact ih x (by omega)
    | obj kvs =>
      simp only [JVal.weight] at h
      simp only [settles, List.all_eq_true]
      intro kv hkv
      have := weight_mem_members kvs kv hkv
      exact ih kv.2 (by omega)


/-! ## The JSON reader returns values smaller than their text -/

theorem skipWs_length_le : ∀ cs : List Char, (RefJSON.skipWs cs).length ≤ cs.length := by
  intro cs
  induction cs with
  | nil => simp [RefJSON.skipWs]
  | cons c cs ih =>
    simp only [RefJSON.skipWs]
    split
    · simp only [List.length_cons]; omega
    · simp

theorem skipWs_cons_length (cs : List Char) (c : Char) (rest : List Char)
    (h : RefJSON.skipWs cs = c :: rest) : rest.length + 1 ≤ cs.length := by
  have := skipWs_length_le cs
  rw [h] at this
  simpa using this

theorem readDigits_length_le : ∀ (cs : List Char) (acc : Nat),
    (RefJSON.readDigits cs acc).2.length ≤ cs.length := by
  intro cs
  induction cs with
  | nil => intro acc; simp [RefJSON.readDigits]
  | cons c cs ih =>
    intro acc
    simp only [RefJSON.readDigits]
    split
    · have := ih (10 * acc + (c.toNat - 48))
      simp only [List.length_cons]; omega
    · simp

theorem readNat_length (cs : List Char) (n : Nat) (r : List Char)
    (h : RefJSON.readNat cs = some (n, r)) : r.length + 1 ≤ cs.length := by
  cases cs with
  | nil => simp [RefJSON.readNat] at h
  | cons c cs =>
    simp only [RefJSON.readNat] at h
    split at h
    · simp only [Option.some.injEq, Prod.mk.injEq] at h
      rw [← h.2]; simp
    · split at h
      · rename_i hd
        simp only [Option.some.injEq] at h
        have h2 : r = (RefJSON.readDigits (c :: cs) 0).2 := by rw [h]
        rw [h2]
        simp only [RefJSON.readDigits, hd, if_true]
        have := readDigits_length_le cs (10 * 0 + (c.toNat - 48))
        simp only [List.length_cons]; omega
      · simp at h

theorem readString_length : ∀ (n : Nat) (cs acc : List Char) (s : String) (r : List Char),
    cs.length ≤ n → RefJSON.readString cs acc = some (s, r) →
      s.length + r.length + 1 ≤ acc.length + cs.length := by
  intro n
  induction n with
  | zero =>
    intro cs acc s r hn h
    cases cs with
    | nil => simp [RefJSON.readString] at h
    | cons c cs => simp at hn
  | succ n ih =>
    intro cs acc s r hn h
    cases cs with
    | nil => simp [RefJSON.readString] at h
    | cons c cs =>
      simp only [List.length_cons] at hn
      unfold RefJSON.readString at h
      split at h
      · simp only [Option.some.injEq, Prod.mk.injEq] at h
        rw [← h.1, ← h.2]
        simp [String.length]
        omega
      · split at h
        · cases cs with
          | nil => simp at h
          | cons d ds =>
            simp only [List.length_cons] at hn
            simp only at h
            have step : ∀ ch : Char, RefJSON.readString ds (ch :: acc) = some (s, r) →
                s.length + r.length + 1 ≤ acc.length + (c :: d :: ds).length := by
              intro ch hch
              have := ih ds (ch :: acc) s r (by omega) hch
              simp only [List.length_cons] at this ⊢
              omega
            split at h
            · exact step _ h
            · split at h
              · exact step _ h
              · split at h
                · exact step _ h
                · split at h
                  · exact step _ h
                  · split at h
                    · exact step _ h
                    · split at h
                      · exact step _ h
                      · simp at h
        · split at h
          · simp at h
          · have := ih cs (c :: acc) s r (by omega) h
            simp only [List.length_cons] at this ⊢
            omega

theorem weightList_append (acc : List JVal) (x : JVal) :
    JVal.weightList (acc ++ [x]) = JVal.weightList acc + x.weight := by
  induction acc with
  | nil => simp [JVal.weightList]
  | cons y rest ih =>
    rw [List.cons_append, JVal.weightList, ih, JVal.weightList]
    omega

theorem weightMembers_setMember (acc : List (String × JVal)) (key : String) (v : JVal) :
    JVal.weightMembers (setMember acc key v) ≤ JVal.weightMembers acc + v.weight := by
  induction acc with
  | nil => simp [setMember, JVal.weightMembers]
  | cons kw rest ih =>
    obtain ⟨k, w⟩ := kw
    simp only [setMember]
    split
    · simp only [JVal.weightMembers]; omega
    · simp only [JVal.weightMembers]; omega

theorem readLiteral_weight (word : List Char) (lit : JVal) (c : Char) (rest : List Char)
    (v : JVal) (r : List Char) (hlit : lit.weight = 1) (hword : 1 ≤ word.length)
    (h : RefJSON.readLiteral word lit (c :: rest) = some (v, r)) :
    v.weight + r.length ≤ (c :: rest).length := by
  simp only [RefJSON.readLiteral] at h
  split at h
  · simp only [Option.some.injEq, Prod.mk.injEq] at h
    rw [← h.1, ← h.2, hlit, List.length_drop]
    simp only [List.length_cons]
    omega
  · simp at h

/-- The value read from a text and the text left over are together no longer than the
text. -/
theorem readValue_weight : ∀ fuel : Nat,
    (∀ (cs : List Char) (v : JVal) (r : List Char),
      RefJSON.readValue fuel cs = some (v, r) → v.weight + r.length ≤ cs.length) ∧
    (∀ (cs : List Char) (acc : List JVal) (v : JVal) (r : List Char),
      RefJSON.readElems fuel cs acc = some (v, r) →
        v.weight + r.length ≤ JVal.weightList acc + cs.length) ∧
    (∀ (cs : List Char) (acc : List (String × JVal)) (v : JVal) (r : List Char),
      RefJSON.readMembers fuel cs acc = some (v, r) →
        v.weight + r.length ≤ JVal.weightMembers acc + cs.length) := by
  intro fuel
  induction fuel with
  | zero =>
    refine ⟨?_, ?_, ?_⟩
    · intro cs v r h; simp [RefJSON.readValue] at h
    · intro cs acc v r h; simp [RefJSON.readElems] at h
    · intro cs acc v r h; simp [RefJSON.readMembers] at h
  | succ fuel ih =>
    obtain ⟨ihv, ihe, ihm⟩ := ih
    refine ⟨?_, ?_, ?_⟩
    · intro cs v r h
      unfold RefJSON.readValue at h
      split at h
      · simp at h
      · rename_i c rest hskip
        have h0 := skipWs_cons_length cs c rest hskip
        split at h
        · split at h
          · rename_i r1 hclose
            have h1 := skipWs_cons_length rest _ r1 hclose
            simp only [Option.some.injEq, Prod.mk.injEq] at h
            rw [← h.1, ← h.2]
            simp only [JVal.weight, JVal.weightMembers]
            omega
          · have h1 := skipWs_length_le rest
            have h2 := ihm _ [] v r h
            simp only [JVal.weightMembers] at h2
            omega
        · split at h
          · split at h
            · rename_i r1 hclose
              have h1 := skipWs_cons_length rest _ r1 hclose
              simp only [Option.some.injEq, Prod.mk.injEq] at h
              rw [← h.1, ← h.2]
              simp only [JVal.weight, JVal.weightList]
              omega
            · have h1 := skipWs_length_le rest
              have h2 := ihe _ [] v r h
              simp only [JVal.weightList] at h2
              omega
          · split at h
            · split at h
              · rename_i s r1 hstr
                have hs := readString_length rest.length rest [] s r1 (le_refl _) hstr
                simp only [List.length_nil] at hs
                simp only [Option.some.injEq, Prod.mk.injEq] at h
                rw [← h.1, ← h.2]
                simp only [JVal.weight]
                omega
              · simp at h
            · split at h
              · split at h
                · rename_i n r1 hnat
                  have hn := readNat_length rest n r1 hnat
                  split at h
                  · simp only [Option.some.injEq, Prod.mk.injEq] at h
                    rw [← h.1, ← h.2]
                    simp only [JVal.weight]
                    omega
                  · simp at h
                · simp at h
              · split at h
                · split at h
                  · rename_i n r1 hnat
                    have hn := readNat_length (c :: rest) n r1 hnat
                    simp only [List.length_cons] at hn
                    split at h
                    · simp only [Option.some.injEq, Prod.mk.injEq] at h
                      rw [← h.1, ← h.2]
                      simp only [JVal.weight]
                      omega
                    · simp at h
                  · simp at h
                · split at h
                  · have := readLiteral_weight ['t', 'r', 'u', 'e'] (.bool true) c rest v r rfl (by decide) h
                    simp only [List.length_cons] at this
                    omega
                  · split at h
                    · have := readLiteral_weight ['f', 'a', 'l', 's', 'e'] (.bool false) c rest v r rfl
                        (by decide) h
                      simp only [List.length_cons] at this
                      omega
                    · split at h
                      · have := readLiteral_weight ['n', 'u', 'l', 'l'] .null c rest v r rfl
                          (by decide) h
                        simp only [List.length_cons] at this
                        omega
                      · simp at h
    · intro cs acc v r h
      unfold RefJSON.readElems at h
      split at h
      · simp at h
      · rename_i x r0 hval
        have hx := ihv cs x r0 hval
        split at h
        · rename_i r1 hsep
          have h1 := skipWs_cons_length r0 _ r1 hsep
          have h2 := ihe r1 (acc ++ [x]) v r h
          rw [weightList_append] at h2
          omega
        · rename_i r1 hsep
          have h1 := skipWs_cons_length r0 _ r1 hsep
          simp only [Option.some.injEq, Prod.mk.injEq] at h
          rw [← h.1, ← h.2]
          simp only [JVal.weight, weightList_append]
          omega
        · simp at h
    · intro cs acc v r h
      unfold RefJSON.readMembers at h
      split at h
      · rename_i r0 hq
        have h0 := skipWs_cons_length cs _ r0 hq
        split at h
        · simp at h
        · rename_i k r1 hkey
          have hk := readString_length r0.length r0 [] k r1 (le_refl _) hkey
          simp only [List.length_nil] at hk
          split at h
          · rename_i r2 hcolon
            have h2 := skipWs_cons_length r1 _ r2 hcolon
            split at h
            · simp at h
            · rename_i x r3 hval
              have hx := ihv r2 x r3 hval
              have hset := weightMembers_setMember acc k x
              split at h
              · rename_i r4 hsep
                have h4 := skipWs_cons_length r3 _ r4 hsep
                have h5 := ihm r4 (setMember acc k x) v r h
                omega
              · rename_i r4 hsep
                have h4 := skipWs_cons_length r3 _ r4 hsep
                simp only [Option.some.injEq, Prod.mk.injEq] at h
                rw [← h.1, ← h.2]
                simp only [JVal.weight]
                omega
              · simp at h
          · simp at h
      · simp at h


/-- The value that the JSON reader returns for a text is smaller than the text is
long. -/
theorem parse_weight (s : String) (v : JVal) (h : RefJSON.parse s = some v) :
    v.weight ≤ s.length := by
  simp only [RefJSON.parse] at h
  split at h
  · rename_i w rest hread
    have hw := (readValue_weight (2 * s.length + 2)).1 s.data w rest hread
    split at h
    · simp only [Option.some.injEq] at h
      rw [← h]
      simp only [String.length]
      omega
    · simp at h
  · simp at h

/-- For the JSON reader, the depth `s.length + 1` is enough for the deep decode of
every text `s`. -/
theorem settles_text (s : String) :
    settles RefJSON.parse (s.length + 1) (.str s) = true :=
  settles_of_weight RefJSON.parse parse_weight (s.length + 1) (.str s)
    (by simp [JVal.weight])

/-- C18: the deep decode is idempotent. For every value `x` (a JSON value, or a string
holding JSON text) and every depth bound that is enough for `x`, deep-decoding the
deep-decoded `x` gives the deep-decoded `x` again; and the value `r` that
`deepParseJson` returns for the body `x` is not changed by a further deep decode, nor
by `deepParseJson`, whether `r` is a string or not. With the JSON reader, the depth
`s.length + 1` is enough for every text `s`. -/
theorem deepDecode_idempotent (jp : String → Option JVal) (depth : Nat) (x : JVal)
    (hdepth : settles jp depth x = true) :
    deepDecode jp depth (deepDecode jp depth x) = deepDecode jp depth x ∧
    (∀ r, deepParseJson jp depth x = .ok r →
      deepDecode jp depth r = r ∧
      deepParseJson jp depth r = .ok r ∧
      ((∀ s, r ≠ .str s) → deepParseJson jp depth r = .ok r)) ∧
    (∀ s : String,
      deepDecode RefJSON.parse (s.length + 1)
        (deepDecode RefJSON.parse (s.length + 1) (.str s)) =
        deepDecode RefJSON.parse (s.length + 1) (.str s)) := by
  refine ⟨deepDecode_settled jp depth x hdepth depth, ?_, ?_⟩
  · intro r hr
    have hstable := deepParseJson_settled jp depth x r hdepth hr
    have hagain : deepParseJson jp depth r = .ok r := by
      simp only [deepParseJson, hstable depth]
    exact ⟨hstable depth, hagain, fun _ => hagain⟩
  · intro s
    exact deepDecode_settled RefJSON.parse (s.length + 1) (.str s) (settles_text s)
      (s.length + 1)

/-- A witness of C18: the body of the scenario of §8 at depth 8. -/
theorem deepDecode_idempotent_witness :
    deepDecode RefJSON.parse 8 (deepDecode RefJSON.parse 8 (.str scenarioBody)) =
      deepDecode RefJSON.parse 8 (.str scenarioBody) ∧
    (∀ r, deepParseJson RefJSON.parse 8 (.str scenarioBody) = .ok r →
      deepDecode RefJSON.parse 8 r = r ∧
      deepParseJson RefJSON.parse 8 r = .ok r ∧
      ((∀ s, r ≠ .str s) → deepParseJson RefJSON.parse 8 r = .ok r)) :=
  have h := deepDecode_idempotent RefJSON.parse 8 (.str scenarioBody) rfl
  ⟨h.1, h.2.1⟩

end Skynet
